import Mathlib

/-!
Verification of the core WebSocket protocol engine (RFC 6455): frame codec,
masking, incremental UTF-8 validation, message assembly, fragmentation,
extension registry, permessage-deflate caps and handshake header parsing.

Byte strings are modelled as `List Nat` (each element a byte value);
Rust `usize`/`u64` arithmetic is modelled on `Nat` with explicit bounds
where wraparound or platform limits matter in the source.
-/

set_option maxRecDepth 10000

/-- Error taxonomy of the library (src/error.rs), restricted to the variants
reachable from the embedded functions.  String payloads are byte lists. -/
inductive Err where
  | incompleteFrame (needed : Nat)
  | invalidOpcode (byte : Nat)
  | reservedOpcode (byte : Nat)
  | payloadTooLargeForPlatform (size max : Nat)
  | invalidFrame (msg : List Nat)
  | protocolViolation (msg : List Nat)
  | invalidUtf8
  | messageTooLarge (size max : Nat)
  | tooManyFragments (count max : Nat)
  | invalidHandshake (msg : List Nat)
  | invalidExtensionErr (msg : List Nat)
  | extensionFailure (msg : List Nat)
  | unreachableBranch
  deriving DecidableEq, Repr

/-- Decidable equality of Except results, for evaluating the embedded
functions at concrete inputs. -/
instance exceptDecEq {e a : Type} [DecidableEq e] [DecidableEq a] :
    DecidableEq (Except e a)
  | .error x, .error y =>
    match decEq x y with
    | isTrue h => isTrue (h ▸ rfl)
    | isFalse h => isFalse fun hc => h (Except.error.inj hc)
  | .error _, .ok _ => isFalse Except.noConfusion
  | .ok _, .error _ => isFalse Except.noConfusion
  | .ok x, .ok y =>
    match decEq x y with
    | isTrue h => isTrue (h ▸ rfl)
    | isFalse h => isFalse fun hc => h (Except.ok.inj hc)

/-- Bytes of a Lean string literal (used for error-message payloads). -/
def strBytes (s : String) : List Nat :=
  s.data.map Char.toNat

/-- WebSocket frame opcode (src/protocol/opcode.rs). -/
inductive OpCode where
  | continuation
  | text
  | binary
  | close
  | ping
  | pong
  deriving DecidableEq, Repr

namespace OpCode

/-- OpCode::from_u8: decode the low 4 bits of byte0 (src/protocol/opcode.rs:50). -/
def fromU8 (byte : Nat) : Except Err OpCode :=
  if byte = 0x0 then .ok .continuation
  else if byte = 0x1 then .ok .text
  else if byte = 0x2 then .ok .binary
  else if 0x3 ≤ byte ∧ byte ≤ 0x7 then .error (.reservedOpcode byte)
  else if byte = 0x8 then .ok .close
  else if byte = 0x9 then .ok .ping
  else if byte = 0xA then .ok .pong
  else if 0xB ≤ byte ∧ byte ≤ 0xF then .error (.reservedOpcode byte)
  else .error (.invalidOpcode byte)

/-- OpCode::as_u8 (the repr(u8) discriminants). -/
def asU8 : OpCode → Nat
  | .continuation => 0x0
  | .text => 0x1
  | .binary => 0x2
  | .close => 0x8
  | .ping => 0x9
  | .pong => 0xA

/-- OpCode::is_control: Close, Ping, Pong. -/
def isControl : OpCode → Bool
  | .close | .ping | .pong => true
  | _ => false

/-- OpCode::is_data: Continuation, Text, Binary. -/
def isData : OpCode → Bool
  | .continuation | .text | .binary => true
  | _ => false

end OpCode

/-- Byte of the 4-byte mask key used at offset `i` (mask[i % 4]). -/
def maskByte (mask : List Nat) (i : Nat) : Nat :=
  mask.getD (i % 4) 0

/-- Masking loop of apply_mask starting at offset `i` (src/protocol/mask.rs:2). -/
def applyMaskFrom (mask : List Nat) : Nat → List Nat → List Nat
  | _, [] => []
  | i, b :: rest => (b ^^^ maskByte mask i) :: applyMaskFrom mask (i + 1) rest

/-- Scalar byte-by-byte XOR masking: data[i] ^= mask[i % 4]
(apply_mask, src/protocol/mask.rs:2-7). -/
def applyMask (data mask : List Nat) : List Nat :=
  applyMaskFrom mask 0 data

theorem applyMaskFrom_applyMaskFrom (mask : List Nat) :
    ∀ (i : Nat) (data : List Nat),
      applyMaskFrom mask i (applyMaskFrom mask i data) = data := by
  intro i data
  induction data generalizing i with
  | nil => rfl
  | cons b rest ih =>
    simp only [applyMaskFrom, Nat.xor_cancel_right, ih]

/-- C5: applying the same 4-byte mask twice restores the original buffer
(XOR masking is self-inverse), for every byte buffer and mask key. -/
theorem applyMask_involutive (data mask : List Nat) :
    applyMask (applyMask data mask) mask = data :=
  applyMaskFrom_applyMaskFrom mask 0 data

/-- Maximum value of usize on the 64-bit platforms the crate targets. -/
def USIZE_MAX : Nat := 2 ^ 64 - 1

/-- Parsed frame header (struct FrameHeader, src/protocol/frame.rs:14-24). -/
structure FrameHeader where
  fin : Bool
  rsv1 : Bool
  rsv2 : Bool
  rsv3 : Bool
  opcode : OpCode
  mask : Option (List Nat)
  payloadLen : Nat
  headerLen : Nat
  deriving DecidableEq, Repr

/-- Big-endian u64 from 8 bytes (u64::from_be_bytes in parse_header). -/
def u64FromBeBytes (b0 b1 b2 b3 b4 b5 b6 b7 : Nat) : Nat :=
  b0 * 2 ^ 56 + b1 * 2 ^ 48 + b2 * 2 ^ 40 + b3 * 2 ^ 32 +
    b4 * 2 ^ 24 + b5 * 2 ^ 16 + b6 * 2 ^ 8 + b7

/-- Mask-key extraction and final header assembly: the code after the
payload-length match in parse_header (src/protocol/frame.rs:90-122). -/
def finishHeader (buf : List Nat) (fin rsv1 rsv2 rsv3 : Bool) (opcode : OpCode)
    (masked : Bool) (payloadLen headerSize : Nat) : Except Err FrameHeader :=
  let maskOffset := headerSize
  let totalHeaderSize := if masked then headerSize + 4 else headerSize
  if masked ∧ buf.length < totalHeaderSize then
    .error (.incompleteFrame (totalHeaderSize - buf.length))
  else
    let mask :=
      if masked then
        some [buf.getD maskOffset 0, buf.getD (maskOffset + 1) 0,
              buf.getD (maskOffset + 2) 0, buf.getD (maskOffset + 3) 0]
      else none
    .ok ⟨fin, rsv1, rsv2, rsv3, opcode, mask, payloadLen, totalHeaderSize⟩

/-- Frame-header parser (parse_header, src/protocol/frame.rs:38-123).
On a 64-bit host usize::MAX = u64::MAX, so the usize::try_from guard
becomes a comparison against USIZE_MAX.  The wildcard arm of the
payload-length match is modelled by the distinguished error
Err.unreachableBranch standing for the unreachable! panic. -/
def parseHeader (buf : List Nat) : Except Err FrameHeader :=
  if buf.length < 2 then .error (.incompleteFrame (2 - buf.length))
  else
    let byte0 := buf.getD 0 0
    let byte1 := buf.getD 1 0
    let fin := decide (byte0 &&& 0x80 ≠ 0)
    let rsv1 := decide (byte0 &&& 0x40 ≠ 0)
    let rsv2 := decide (byte0 &&& 0x20 ≠ 0)
    let rsv3 := decide (byte0 &&& 0x10 ≠ 0)
    match OpCode.fromU8 (byte0 &&& 0x0F) with
    | .error e => .error e
    | .ok opcode =>
      let masked := decide (byte1 &&& 0x80 ≠ 0)
      let payloadLenInitial := byte1 &&& 0x7F
      if payloadLenInitial ≤ 125 then
        finishHeader buf fin rsv1 rsv2 rsv3 opcode masked payloadLenInitial 2
      else if payloadLenInitial = 126 then
        if buf.length < 4 then .error (.incompleteFrame (4 - buf.length))
        else
          finishHeader buf fin rsv1 rsv2 rsv3 opcode masked
            (256 * buf.getD 2 0 + buf.getD 3 0) 4
      else if payloadLenInitial = 127 then
        if buf.length < 10 then .error (.incompleteFrame (10 - buf.length))
        else
          let lenU64 := u64FromBeBytes (buf.getD 2 0) (buf.getD 3 0) (buf.getD 4 0)
            (buf.getD 5 0) (buf.getD 6 0) (buf.getD 7 0) (buf.getD 8 0) (buf.getD 9 0)
          if USIZE_MAX < lenU64 then
            .error (.payloadTooLargeForPlatform lenU64 USIZE_MAX)
          else finishHeader buf fin rsv1 rsv2 rsv3 opcode masked lenU64 10
      else .error .unreachableBranch

/-- A WebSocket frame (struct Frame, src/protocol/frame.rs:155-169).
The Owned/Shared payload distinction is a memory-representation detail;
both variants denote the same byte sequence, modelled as one list. -/
structure Frame where
  fin : Bool
  rsv1 : Bool
  rsv2 : Bool
  rsv3 : Bool
  opcode : OpCode
  payload : List Nat
  deriving DecidableEq, Repr

namespace Frame

/-- Frame::new: rsv bits cleared (src/protocol/frame.rs:180-189). -/
def new (fin : Bool) (opcode : OpCode) (payload : List Nat) : Frame :=
  ⟨fin, false, false, false, opcode, payload⟩

/-- Frame::parse (src/protocol/frame.rs:257-293).  Returns the frame and
the number of bytes consumed.  The header_len.checked_add(payload_len)
guard is the USIZE_MAX comparison; apply_mask_simd is extensionally
apply_mask (the crate tests assert scalar/SIMD agreement). -/
def parse (buf : List Nat) : Except Err (Frame × Nat) :=
  match parseHeader buf with
  | .error e => .error e
  | .ok header =>
    if USIZE_MAX < header.headerLen + header.payloadLen then
      .error (.payloadTooLargeForPlatform header.payloadLen USIZE_MAX)
    else
      let totalSize := header.headerLen + header.payloadLen
      if buf.length < totalSize then
        .error (.incompleteFrame (totalSize - buf.length))
      else
        let raw := (buf.drop header.headerLen).take header.payloadLen
        let payload :=
          match header.mask with
          | some mask => applyMask raw mask
          | none => raw
        .ok (⟨header.fin, header.rsv1, header.rsv2, header.rsv3,
              header.opcode, payload⟩, totalSize)

end Frame

/-- First header byte assembled by Frame::write (src/protocol/frame.rs:413-427). -/
def mkByte0 (fin rsv1 rsv2 rsv3 : Bool) (opcode : OpCode) : Nat :=
  let b0 := opcode.asU8
  let b1 := if fin then b0 ||| 0x80 else b0
  let b2 := if rsv1 then b1 ||| 0x40 else b1
  let b3 := if rsv2 then b2 ||| 0x20 else b2
  if rsv3 then b3 ||| 0x10 else b3

/-- Second header byte assembled by Frame::write (src/protocol/frame.rs:429-434). -/
def mkByte1 (masked : Bool) (lenBits : Nat) : Nat :=
  if masked then lenBits ||| 0x80 else lenBits

/-- Big-endian bytes of a u16 (u16::to_be_bytes in Frame::write). -/
def u16ToBeBytes (n : Nat) : List Nat :=
  [n / 256 % 256, n % 256]

/-- Big-endian bytes of a u64 (u64::to_be_bytes in Frame::write). -/
def u64ToBeBytes (n : Nat) : List Nat :=
  [n / 2 ^ 56 % 256, n / 2 ^ 48 % 256, n / 2 ^ 40 % 256, n / 2 ^ 32 % 256,
   n / 2 ^ 24 % 256, n / 2 ^ 16 % 256, n / 2 ^ 8 % 256, n % 256]

namespace Frame

/-- Bytes produced by Frame::write into the caller buffer
(src/protocol/frame.rs:387-468): header byte pair, extended length with
the shortest valid encoding, optional mask key, payload XOR-masked in
place when a key is supplied. -/
def writeBytes (f : Frame) (mask : Option (List Nat)) : List Nat :=
  let payloadLen := f.payload.length
  let lenBits :=
    if payloadLen ≤ 125 then payloadLen
    else if payloadLen ≤ 65535 then 126
    else 127
  let extLen : List Nat :=
    if payloadLen ≤ 125 then []
    else if payloadLen ≤ 65535 then u16ToBeBytes payloadLen
    else u64ToBeBytes payloadLen
  let byte0 := mkByte0 f.fin f.rsv1 f.rsv2 f.rsv3 f.opcode
  let byte1 := mkByte1 mask.isSome lenBits
  match mask with
  | some maskKey => byte0 :: byte1 :: (extLen ++ maskKey ++ applyMask f.payload maskKey)
  | none => byte0 :: byte1 :: (extLen ++ f.payload)

/-- Frame::wire_size (src/protocol/frame.rs:472-483). -/
def wireSize (f : Frame) (masked : Bool) : Nat :=
  let payloadLen := f.payload.length
  let extendedLenSize :=
    if payloadLen ≤ 125 then 0
    else if payloadLen ≤ 65535 then 2
    else 8
  let maskSize := if masked then 4 else 0
  2 + extendedLenSize + maskSize + payloadLen

/-- Frame::write modelled at the caller-buffer boundary: fails when the
destination buffer is smaller than the frame needs, otherwise yields the
written bytes and their count (src/protocol/frame.rs:404-411, 467). -/
def write (f : Frame) (bufLen : Nat) (mask : Option (List Nat)) :
    Except Err (List Nat × Nat) :=
  let out := f.writeBytes mask
  if bufLen < out.length then
    .error (.invalidFrame (strBytes "Buffer too small"))
  else .ok (out, out.length)

end Frame

theorem applyMaskFrom_length (mask : List Nat) :
    ∀ (i : Nat) (data : List Nat), (applyMaskFrom mask i data).length = data.length := by
  intro i data
  induction data generalizing i with
  | nil => rfl
  | cons b rest ih => simp [applyMaskFrom, ih]

theorem applyMask_length (data mask : List Nat) :
    (applyMask data mask).length = data.length :=
  applyMaskFrom_length mask 0 data

theorem lor_128_eq_add (l : Nat) (h : l < 128) : l ||| 128 = l + 128 := by
  have h7 : l < 2 ^ 7 := h
  have h2 := Nat.mul_add_lt_is_or h7 1
  rw [Nat.mul_one] at h2
  rw [Nat.lor_comm] at h2
  have h128 : (128 : Nat) = 2 ^ 7 := by norm_num
  rw [h128, ← h2]
  omega

theorem mkByte0_spec (fin r1 r2 r3 : Bool) (op : OpCode) :
    OpCode.fromU8 (mkByte0 fin r1 r2 r3 op &&& 0x0F) = .ok op ∧
      decide (mkByte0 fin r1 r2 r3 op &&& 0x80 ≠ 0) = fin ∧
      decide (mkByte0 fin r1 r2 r3 op &&& 0x40 ≠ 0) = r1 ∧
      decide (mkByte0 fin r1 r2 r3 op &&& 0x20 ≠ 0) = r2 ∧
      decide (mkByte0 fin r1 r2 r3 op &&& 0x10 ≠ 0) = r3 := by
  cases fin <;> cases r1 <;> cases r2 <;> cases r3 <;> cases op <;>
    exact ⟨rfl, rfl, rfl, rfl, rfl⟩

theorem mkByte1_lenBits (m : Bool) (l : Nat) (h : l < 128) :
    mkByte1 m l &&& 0x7F = l := by
  have h127 : (0x7F : Nat) = 2 ^ 7 - 1 := by norm_num
  cases m with
  | false =>
    simp only [mkByte1, if_neg Bool.false_ne_true, h127,
      Nat.and_pow_two_sub_one_eq_mod]
    omega
  | true =>
    simp only [mkByte1, if_true, lor_128_eq_add l h, h127,
      Nat.and_pow_two_sub_one_eq_mod]
    omega

theorem mkByte1_masked (m : Bool) (l : Nat) (h : l < 128) :
    decide (mkByte1 m l &&& 0x80 ≠ 0) = m := by
  have h128 : (0x80 : Nat) = 2 ^ 7 := by norm_num
  have hl : l &&& 0x80 = 0 := by
    rw [h128, Nat.and_two_pow, Nat.testBit_lt_two_pow h]
    rfl
  cases m with
  | false => simp [mkByte1, hl]
  | true =>
    have hbit : (l + 2 ^ 7).testBit 7 = true := by
      rw [Nat.add_comm l (2 ^ 7), Nat.testBit_two_pow_add_eq,
        Nat.testBit_lt_two_pow h]
      rfl
    have hand : (l + 128) &&& 128 = 128 := by
      rw [h128, Nat.and_two_pow, hbit]
      norm_num
    simp only [mkByte1, if_true, lor_128_eq_add l h, hand]
    simp

theorem list_eq_four_of_length (l : List Nat) (h : l.length = 4) :
    ∃ a b c d, l = [a, b, c, d] := by
  rcases l with _ | ⟨a, l⟩
  · simp at h
  rcases l with _ | ⟨b, l⟩
  · simp at h
  rcases l with _ | ⟨c, l⟩
  · simp at h
  rcases l with _ | ⟨d, l⟩
  · simp at h
  rcases l with _ | ⟨e, l⟩
  · exact ⟨a, b, c, d, rfl⟩
  · simp at h

theorem parseHeader_writeSmall (fin rsv1 rsv2 rsv3 : Bool) (op : OpCode)
    (payload : List Nat) (h125 : payload.length ≤ 125) :
    parseHeader (mkByte0 fin rsv1 rsv2 rsv3 op :: mkByte1 false payload.length :: payload) =
      .ok ⟨fin, rsv1, rsv2, rsv3, op, none, payload.length, 2⟩ := by
  obtain ⟨h0a, h0b, h0c, h0d, h0e⟩ := mkByte0_spec fin rsv1 rsv2 rsv3 op
  have hlt : payload.length < 128 := by omega
  simp only [parseHeader, List.length_cons, List.getD_cons_zero, List.getD_cons_succ]
  rw [if_neg (by omega)]
  simp only [h0a, h0b, h0c, h0d, h0e, mkByte1_masked false _ hlt,
    mkByte1_lenBits false _ hlt, if_pos h125]
  simp [finishHeader]

theorem parseHeader_writeSmallMasked (fin rsv1 rsv2 rsv3 : Bool) (op : OpCode)
    (m0 m1 m2 m3 : Nat) (tail : List Nat) (n : Nat) (h125 : n ≤ 125) :
    parseHeader (mkByte0 fin rsv1 rsv2 rsv3 op :: mkByte1 true n ::
        ([m0, m1, m2, m3] ++ tail)) =
      .ok ⟨fin, rsv1, rsv2, rsv3, op, some [m0, m1, m2, m3], n, 6⟩ := by
  obtain ⟨h0a, h0b, h0c, h0d, h0e⟩ := mkByte0_spec fin rsv1 rsv2 rsv3 op
  have hlt : n < 128 := by omega
  simp only [parseHeader, List.cons_append, List.nil_append, List.length_cons,
    List.getD_cons_zero, List.getD_cons_succ, h0a, h0b, h0c, h0d, h0e,
    mkByte1_masked true _ hlt, mkByte1_lenBits true _ hlt, if_true, if_false]
  rw [if_neg (by omega), if_pos h125]
  simp only [finishHeader, List.length_cons, List.getD_cons_zero, List.getD_cons_succ]
  rw [if_neg (by simp)]
  simp

theorem parseHeader_writeMid (fin rsv1 rsv2 rsv3 : Bool) (op : OpCode)
    (tail : List Nat) (n : Nat) (hlo : 126 ≤ n) (hhi : n ≤ 65535) :
    parseHeader (mkByte0 fin rsv1 rsv2 rsv3 op :: mkByte1 false 126 ::
        (u16ToBeBytes n ++ tail)) =
      .ok ⟨fin, rsv1, rsv2, rsv3, op, none, n, 4⟩ := by
  obtain ⟨h0a, h0b, h0c, h0d, h0e⟩ := mkByte0_spec fin rsv1 rsv2 rsv3 op
  have hlt : (126 : Nat) < 128 := by omega
  have hdec : 256 * (n / 256 % 256) + n % 256 = n := by omega
  simp only [u16ToBeBytes, parseHeader, List.cons_append, List.nil_append,
    List.length_cons, List.getD_cons_zero, List.getD_cons_succ, h0a, h0b, h0c, h0d, h0e,
    mkByte1_masked false _ hlt, mkByte1_lenBits false _ hlt, hdec, if_true, if_false]
  split_ifs <;> try (exfalso; omega)
  simp [finishHeader]

theorem parseHeader_writeMidMasked (fin rsv1 rsv2 rsv3 : Bool) (op : OpCode)
    (m0 m1 m2 m3 : Nat) (tail : List Nat) (n : Nat) (hlo : 126 ≤ n) (hhi : n ≤ 65535) :
    parseHeader (mkByte0 fin rsv1 rsv2 rsv3 op :: mkByte1 true 126 ::
        (u16ToBeBytes n ++ [m0, m1, m2, m3] ++ tail)) =
      .ok ⟨fin, rsv1, rsv2, rsv3, op, some [m0, m1, m2, m3], n, 8⟩ := by
  obtain ⟨h0a, h0b, h0c, h0d, h0e⟩ := mkByte0_spec fin rsv1 rsv2 rsv3 op
  have hlt : (126 : Nat) < 128 := by omega
  have hdec : 256 * (n / 256 % 256) + n % 256 = n := by omega
  simp only [u16ToBeBytes, parseHeader, List.cons_append, List.nil_append,
    List.length_cons, List.getD_cons_zero, List.getD_cons_succ, h0a, h0b, h0c, h0d, h0e,
    mkByte1_masked true _ hlt, mkByte1_lenBits true _ hlt, hdec, if_true, if_false]
  split_ifs <;> try (exfalso; omega)
  simp only [finishHeader, List.length_cons, List.getD_cons_zero, List.getD_cons_succ]
  rw [if_neg (by simp)]
  simp

theorem parseHeader_writeLarge (fin rsv1 rsv2 rsv3 : Bool) (op : OpCode)
    (tail : List Nat) (n : Nat) (hlo : 65536 ≤ n) (hhi : n + 14 ≤ USIZE_MAX) :
    parseHeader (mkByte0 fin rsv1 rsv2 rsv3 op :: mkByte1 false 127 ::
        (u64ToBeBytes n ++ tail)) =
      .ok ⟨fin, rsv1, rsv2, rsv3, op, none, n, 10⟩ := by
  obtain ⟨h0a, h0b, h0c, h0d, h0e⟩ := mkByte0_spec fin rsv1 rsv2 rsv3 op
  have hlt : (127 : Nat) < 128 := by omega
  have hU : ¬ USIZE_MAX < n := by omega
  have hn64 : n < 2 ^ 64 := by
    unfold USIZE_MAX at hhi
    omega
  have hdec : u64FromBeBytes (n / 2 ^ 56 % 256) (n / 2 ^ 48 % 256) (n / 2 ^ 40 % 256)
      (n / 2 ^ 32 % 256) (n / 2 ^ 24 % 256) (n / 2 ^ 16 % 256) (n / 2 ^ 8 % 256)
      (n % 256) = n := by
    unfold u64FromBeBytes
    omega
  simp only [u64ToBeBytes, parseHeader, List.cons_append, List.nil_append,
    List.length_cons, List.getD_cons_zero, List.getD_cons_succ, h0a, h0b, h0c, h0d, h0e,
    mkByte1_masked false _ hlt, mkByte1_lenBits false _ hlt, hdec, if_true, if_false]
  split_ifs <;> try (exfalso; omega)
  simp [finishHeader]

theorem parseHeader_writeLargeMasked (fin rsv1 rsv2 rsv3 : Bool) (op : OpCode)
    (m0 m1 m2 m3 : Nat) (tail : List Nat) (n : Nat) (hlo : 65536 ≤ n)
    (hhi : n + 14 ≤ USIZE_MAX) :
    parseHeader (mkByte0 fin rsv1 rsv2 rsv3 op :: mkByte1 true 127 ::
        (u64ToBeBytes n ++ [m0, m1, m2, m3] ++ tail)) =
      .ok ⟨fin, rsv1, rsv2, rsv3, op, some [m0, m1, m2, m3], n, 14⟩ := by
  obtain ⟨h0a, h0b, h0c, h0d, h0e⟩ := mkByte0_spec fin rsv1 rsv2 rsv3 op
  have hlt : (127 : Nat) < 128 := by omega
  have hU : ¬ USIZE_MAX < n := by omega
  have hn64 : n < 2 ^ 64 := by
    unfold USIZE_MAX at hhi
    omega
  have hdec : u64FromBeBytes (n / 2 ^ 56 % 256) (n / 2 ^ 48 % 256) (n / 2 ^ 40 % 256)
      (n / 2 ^ 32 % 256) (n / 2 ^ 24 % 256) (n / 2 ^ 16 % 256) (n / 2 ^ 8 % 256)
      (n % 256) = n := by
    unfold u64FromBeBytes
    omega
  simp only [u64ToBeBytes, parseHeader, List.cons_append, List.nil_append,
    List.length_cons, List.getD_cons_zero, List.getD_cons_succ, h0a, h0b, h0c, h0d, h0e,
    mkByte1_masked true _ hlt, mkByte1_lenBits true _ hlt, hdec, if_true, if_false]
  split_ifs <;> try (exfalso; omega)
  simp only [finishHeader, List.length_cons, List.getD_cons_zero, List.getD_cons_succ]
  rw [if_neg (by simp)]
  simp

theorem parse_eq_of_parseHeader (buf : List Nat) (h : FrameHeader)
    (hph : parseHeader buf = .ok h)
    (hU : h.headerLen + h.payloadLen ≤ USIZE_MAX)
    (hbl : h.headerLen + h.payloadLen ≤ buf.length) :
    Frame.parse buf = .ok
      (⟨h.fin, h.rsv1, h.rsv2, h.rsv3, h.opcode,
        match h.mask with
        | some m => applyMask ((buf.drop h.headerLen).take h.payloadLen) m
        | none => (buf.drop h.headerLen).take h.payloadLen⟩,
        h.headerLen + h.payloadLen) := by
  simp only [Frame.parse, hph]
  rw [if_neg (by omega), if_neg (by omega)]

theorem frame_parse_writeBytes (f : Frame) (mask : Option (List Nat))
    (hmask : ∀ mk, mask = some mk → mk.length = 4)
    (hlen : f.payload.length + 14 ≤ USIZE_MAX) :
    Frame.parse (f.writeBytes mask) = .ok (f, (f.writeBytes mask).length) := by
  obtain ⟨fin, rsv1, rsv2, rsv3, op, payload⟩ := f
  simp only at hlen
  cases mask with
  | none =>
    rcases Nat.lt_or_ge payload.length 126 with h126 | h126
    · have h125 : payload.length ≤ 125 := by omega
      simp only [Frame.writeBytes, Option.isSome_none, if_pos h125, List.nil_append]
      rw [parse_eq_of_parseHeader _ _
        (parseHeader_writeSmall fin rsv1 rsv2 rsv3 op payload h125)
        (by show 2 + payload.length ≤ USIZE_MAX; omega)
        (by simp only [List.length_cons]; omega)]
      simp
      omega
    · rcases Nat.lt_or_ge payload.length 65536 with h65536 | h65536
      · have hc1 : ¬ payload.length ≤ 125 := by omega
        have hhi : payload.length ≤ 65535 := by omega
        simp only [Frame.writeBytes, Option.isSome_none, if_neg hc1, if_pos hhi]
        rw [parse_eq_of_parseHeader _ _
          (parseHeader_writeMid fin rsv1 rsv2 rsv3 op payload payload.length h126 hhi)
          (by show 4 + payload.length ≤ USIZE_MAX; omega)
          (by simp only [u16ToBeBytes, List.cons_append, List.nil_append,
            List.length_cons, List.length_append]; omega)]
        simp [u16ToBeBytes]
        omega
      · have hc1 : ¬ payload.length ≤ 125 := by omega
        have hc2 : ¬ payload.length ≤ 65535 := by omega
        have hlarge : 65536 ≤ payload.length := by omega
        simp only [Frame.writeBytes, Option.isSome_none, if_neg hc1, if_neg hc2]
        rw [parse_eq_of_parseHeader _ _
          (parseHeader_writeLarge fin rsv1 rsv2 rsv3 op payload payload.length hlarge
            (by omega))
          (by show 10 + payload.length ≤ USIZE_MAX; omega)
          (by simp only [u64ToBeBytes, List.cons_append, List.nil_append,
            List.length_cons, List.length_append]; omega)]
        simp [u64ToBeBytes]
        omega
  | some mk =>
    obtain ⟨m0, m1, m2, m3, rfl⟩ := list_eq_four_of_length mk (hmask mk rfl)
    rcases Nat.lt_or_ge payload.length 126 with h126 | h126
    · have h125 : payload.length ≤ 125 := by omega
      simp only [Frame.writeBytes, Option.isSome_some, if_pos h125, List.nil_append]
      rw [parse_eq_of_parseHeader _ _
        (parseHeader_writeSmallMasked fin rsv1 rsv2 rsv3 op m0 m1 m2 m3
          (applyMask payload [m0, m1, m2, m3]) payload.length h125)
        (by show 6 + payload.length ≤ USIZE_MAX; omega)
        (by simp only [List.cons_append, List.nil_append, List.length_cons,
          List.length_append, applyMask_length]; omega)]
      simp only [List.cons_append, List.nil_append, List.drop_succ_cons, List.drop_zero]
      rw [show (applyMask payload [m0, m1, m2, m3]).take payload.length =
        applyMask payload [m0, m1, m2, m3] from by
          rw [← applyMask_length payload [m0, m1, m2, m3]]
          exact List.take_length _]
      simp [applyMask_involutive, applyMask_length]
      omega
    · rcases Nat.lt_or_ge payload.length 65536 with h65536 | h65536
      · have hc1 : ¬ payload.length ≤ 125 := by omega
        have hhi : payload.length ≤ 65535 := by omega
        simp only [Frame.writeBytes, Option.isSome_some, if_neg hc1, if_pos hhi]
        rw [parse_eq_of_parseHeader _ _
          (parseHeader_writeMidMasked fin rsv1 rsv2 rsv3 op m0 m1 m2 m3
            (applyMask payload [m0, m1, m2, m3]) payload.length h126 hhi)
          (by show 8 + payload.length ≤ USIZE_MAX; omega)
          (by simp only [u16ToBeBytes, List.cons_append, List.nil_append,
            List.length_cons, List.length_append, applyMask_length]; omega)]
        simp only [u16ToBeBytes, List.cons_append, List.nil_append,
          List.drop_succ_cons, List.drop_zero]
        rw [show (applyMask payload [m0, m1, m2, m3]).take payload.length =
          applyMask payload [m0, m1, m2, m3] from by
            rw [← applyMask_length payload [m0, m1, m2, m3]]
            exact List.take_length _]
        simp [applyMask_involutive, applyMask_length, u16ToBeBytes]
        omega
      · have hc1 : ¬ payload.length ≤ 125 := by omega
        have hc2 : ¬ payload.length ≤ 65535 := by omega
        have hlarge : 65536 ≤ payload.length := by omega
        simp only [Frame.writeBytes, Option.isSome_some, if_neg hc1, if_neg hc2]
        rw [parse_eq_of_parseHeader _ _
          (parseHeader_writeLargeMasked fin rsv1 rsv2 rsv3 op m0 m1 m2 m3
            (applyMask payload [m0, m1, m2, m3]) payload.length hlarge (by omega))
          (by show 14 + payload.length ≤ USIZE_MAX; omega)
          (by simp only [u64ToBeBytes, List.cons_append, List.nil_append,
            List.length_cons, List.length_append, applyMask_length]; omega)]
        simp only [u64ToBeBytes, List.cons_append, List.nil_append,
          List.drop_succ_cons, List.drop_zero]
        rw [show (applyMask payload [m0, m1, m2, m3]).take payload.length =
          applyMask payload [m0, m1, m2, m3] from by
            rw [← applyMask_length payload [m0, m1, m2, m3]]
            exact List.take_length _]
        simp [applyMask_involutive, applyMask_length, u64ToBeBytes]
        omega

/-- C1: for every data frame (any final flag, opcode Text or Binary, any
payload) and every optional 4-byte mask key, Frame::write into a large
enough buffer followed by Frame::parse succeeds and recovers the final
flag, opcode and payload byte-identically, with the consumed byte count
equal to the written byte count. -/
theorem frame_write_parse_roundtrip (f : Frame) (mask : Option (List Nat)) (bufLen : Nat)
    (_hop : f.opcode = .text ∨ f.opcode = .binary)
    (hmask : ∀ mk, mask = some mk → mk.length = 4)
    (hlen : f.payload.length + 14 ≤ USIZE_MAX)
    (hbuf : (f.writeBytes mask).length ≤ bufLen) :
    ∃ out written, f.write bufLen mask = .ok (out, written) ∧
      ∃ g, Frame.parse out = .ok (g, written) ∧
        g.fin = f.fin ∧ g.opcode = f.opcode ∧ g.payload = f.payload := by
  refine ⟨f.writeBytes mask, (f.writeBytes mask).length, ?_, f, ?_, rfl, rfl, rfl⟩
  · simp only [Frame.write]
    rw [if_neg (by omega)]
  · exact frame_parse_writeBytes f mask hmask hlen

/-- Witness for C1 at a concrete masked text frame. -/
theorem frame_write_parse_roundtrip_witness :
    ∃ out written,
      (Frame.new true .text [72, 105]).write 32 (some [1, 2, 3, 4]) = .ok (out, written) ∧
      ∃ g, Frame.parse out = .ok (g, written) ∧
        g.fin = (Frame.new true .text [72, 105]).fin ∧
        g.opcode = (Frame.new true .text [72, 105]).opcode ∧
        g.payload = (Frame.new true .text [72, 105]).payload :=
  frame_write_parse_roundtrip (Frame.new true .text [72, 105]) (some [1, 2, 3, 4]) 32
    (Or.inl rfl)
    (by
      intro mk h
      injection h with h1
      rw [← h1]
      rfl)
    (by decide)
    (by decide)

theorem getD_take_of_lt (l : List Nat) (k i : Nat) (h : i < k) :
    (l.take k).getD i 0 = l.getD i 0 := by
  simp [List.getD_eq_getElem?_getD, List.getElem?_take_of_lt h]

theorem finishHeader_truncation (buf : List Nat) (fin rsv1 rsv2 rsv3 : Bool)
    (opcode : OpCode) (masked : Bool) (payloadLen headerSize : Nat) (h : FrameHeader)
    (hfh : finishHeader buf fin rsv1 rsv2 rsv3 opcode masked payloadLen headerSize = .ok h)
    (k : Nat) (hks : headerSize ≤ k) (hkl : k ≤ buf.length) :
    (h.headerLen ≤ k →
      finishHeader (buf.take k) fin rsv1 rsv2 rsv3 opcode masked payloadLen headerSize =
        .ok h) ∧
    (k < h.headerLen →
      ∃ m, finishHeader (buf.take k) fin rsv1 rsv2 rsv3 opcode masked payloadLen headerSize =
        .error (.incompleteFrame m) ∧ 0 < m) := by
  have htklen : (buf.take k).length = k := by
    simp only [List.length_take]
    omega
  cases masked with
  | false =>
    simp only [finishHeader, Bool.false_eq_true, false_and, if_false, htklen] at hfh ⊢
    injection hfh with hh
    subst hh
    constructor
    · intro _
      rfl
    · intro hcon
      exfalso
      simp at hcon
      omega
  | true =>
    simp only [finishHeader, htklen, eq_self_iff_true, true_and, if_true] at hfh ⊢
    by_cases hbl : buf.length < headerSize + 4
    · rw [if_pos hbl] at hfh
      exact absurd hfh (by simp)
    · rw [if_neg hbl] at hfh
      injection hfh with hh
      subst hh
      by_cases hk4 : k < headerSize + 4
      · constructor
        · intro hcon
          exfalso
          simp at hcon
          omega
        · intro _
          rw [if_pos hk4]
          exact ⟨headerSize + 4 - k, rfl, by omega⟩
      · have e0 : (buf.take k).getD headerSize 0 = buf.getD headerSize 0 :=
          getD_take_of_lt _ _ _ (by omega)
        have e1 : (buf.take k).getD (headerSize + 1) 0 = buf.getD (headerSize + 1) 0 :=
          getD_take_of_lt _ _ _ (by omega)
        have e2 : (buf.take k).getD (headerSize + 2) 0 = buf.getD (headerSize + 2) 0 :=
          getD_take_of_lt _ _ _ (by omega)
        have e3 : (buf.take k).getD (headerSize + 3) 0 = buf.getD (headerSize + 3) 0 :=
          getD_take_of_lt _ _ _ (by omega)
        rw [if_neg hk4, e0, e1, e2, e3]
        constructor
        · intro _
          rfl
        · intro hcon
          exfalso
          simp at hcon
          omega

theorem finishHeader_headerLen_ge (buf : List Nat) (fin rsv1 rsv2 rsv3 : Bool)
    (opcode : OpCode) (masked : Bool) (payloadLen headerSize : Nat) (h : FrameHeader)
    (hfh : finishHeader buf fin rsv1 rsv2 rsv3 opcode masked payloadLen headerSize = .ok h) :
    headerSize ≤ h.headerLen := by
  cases masked with
  | false =>
    simp only [finishHeader, Bool.false_eq_true, false_and, if_false] at hfh
    injection hfh with hh
    subst hh
    simp
  | true =>
    simp only [finishHeader, eq_self_iff_true, true_and, if_true] at hfh
    by_cases hbl : buf.length < headerSize + 4
    · rw [if_pos hbl] at hfh
      exact absurd hfh (by simp)
    · rw [if_neg hbl] at hfh
      injection hfh with hh
      subst hh
      simp

theorem parseHeader_truncation (buf : List Nat) (h : FrameHeader)
    (hph : parseHeader buf = .ok h) (k : Nat) (hk2 : 2 ≤ k) (hkl : k ≤ buf.length) :
    (h.headerLen ≤ k → parseHeader (buf.take k) = .ok h) ∧
    (k < h.headerLen →
      ∃ m, parseHeader (buf.take k) = .error (.incompleteFrame m) ∧ 0 < m) := by
  have htklen : (buf.take k).length = k := by
    simp only [List.length_take]
    omega
  have hg0 : (buf.take k).getD 0 0 = buf.getD 0 0 := getD_take_of_lt _ _ _ (by omega)
  have hg1 : (buf.take k).getD 1 0 = buf.getD 1 0 := getD_take_of_lt _ _ _ (by omega)
  simp only [parseHeader, htklen, hg0, hg1] at hph ⊢
  rw [if_neg (show ¬ buf.length < 2 by omega)] at hph
  rw [if_neg (show ¬ k < 2 by omega)]
  cases hopc : OpCode.fromU8 (buf.getD 0 0 &&& 15) with
  | error e =>
    rw [hopc] at hph
    exact absurd hph (by simp)
  | ok opcode =>
    rw [hopc] at hph
    dsimp only at hph ⊢
    by_cases h125 : buf.getD 1 0 &&& 127 ≤ 125
    · rw [if_pos h125] at hph ⊢
      exact finishHeader_truncation buf _ _ _ _ opcode _ _ 2 h hph k (by omega) hkl
    · rw [if_neg h125] at hph ⊢
      by_cases h126 : buf.getD 1 0 &&& 127 = 126
      · rw [if_pos h126] at hph ⊢
        by_cases hbl4 : buf.length < 4
        · rw [if_pos hbl4] at hph
          exact absurd hph (by simp)
        · rw [if_neg hbl4] at hph
          by_cases hk4 : k < 4
          · rw [if_pos hk4]
            have hhl : 4 ≤ h.headerLen :=
              finishHeader_headerLen_ge buf _ _ _ _ opcode _ _ 4 h hph
            constructor
            · intro hcon
              exfalso
              omega
            · intro _
              exact ⟨4 - k, rfl, by omega⟩
          · rw [if_neg hk4]
            have e2 : (buf.take k).getD 2 0 = buf.getD 2 0 := getD_take_of_lt _ _ _ (by omega)
            have e3 : (buf.take k).getD 3 0 = buf.getD 3 0 := getD_take_of_lt _ _ _ (by omega)
            rw [e2, e3]
            exact finishHeader_truncation buf _ _ _ _ opcode _ _ 4 h hph k (by omega) hkl
      · rw [if_neg h126] at hph ⊢
        by_cases h127 : buf.getD 1 0 &&& 127 = 127
        · rw [if_pos h127] at hph ⊢
          by_cases hbl10 : buf.length < 10
          · rw [if_pos hbl10] at hph
            exact absurd hph (by simp)
          · rw [if_neg hbl10] at hph
            by_cases hk10 : k < 10
            · rw [if_pos hk10]
              have hhl : 10 ≤ h.headerLen := by
                by_cases hus : USIZE_MAX < u64FromBeBytes (buf.getD 2 0) (buf.getD 3 0)
                    (buf.getD 4 0) (buf.getD 5 0) (buf.getD 6 0) (buf.getD 7 0)
                    (buf.getD 8 0) (buf.getD 9 0)
                · rw [if_pos hus] at hph
                  exact absurd hph (by simp)
                · rw [if_neg hus] at hph
                  exact finishHeader_headerLen_ge buf _ _ _ _ opcode _ _ 10 h hph
              constructor
              · intro hcon
                exfalso
                omega
              · intro _
                exact ⟨10 - k, rfl, by omega⟩
            · rw [if_neg hk10]
              have e2 : (buf.take k).getD 2 0 = buf.getD 2 0 := getD_take_of_lt _ _ _ (by omega)
              have e3 : (buf.take k).getD 3 0 = buf.getD 3 0 := getD_take_of_lt _ _ _ (by omega)
              have e4 : (buf.take k).getD 4 0 = buf.getD 4 0 := getD_take_of_lt _ _ _ (by omega)
              have e5 : (buf.take k).getD 5 0 = buf.getD 5 0 := getD_take_of_lt _ _ _ (by omega)
              have e6 : (buf.take k).getD 6 0 = buf.getD 6 0 := getD_take_of_lt _ _ _ (by omega)
              have e7 : (buf.take k).getD 7 0 = buf.getD 7 0 := getD_take_of_lt _ _ _ (by omega)
              have e8 : (buf.take k).getD 8 0 = buf.getD 8 0 := getD_take_of_lt _ _ _ (by omega)
              have e9 : (buf.take k).getD 9 0 = buf.getD 9 0 := getD_take_of_lt _ _ _ (by omega)
              rw [e2, e3, e4, e5, e6, e7, e8, e9]
              by_cases hus : USIZE_MAX < u64FromBeBytes (buf.getD 2 0) (buf.getD 3 0)
                  (buf.getD 4 0) (buf.getD 5 0) (buf.getD 6 0) (buf.getD 7 0)
                  (buf.getD 8 0) (buf.getD 9 0)
              · rw [if_pos hus] at hph
                exact absurd hph (by simp)
              · rw [if_neg hus] at hph
                rw [if_neg hus]
                exact finishHeader_truncation buf _ _ _ _ opcode _ _ 10 h hph k (by omega) hkl
        · rw [if_neg h127] at hph
          exact absurd hph (by simp)

/-- C3: truncating any buffer that parses as exactly one whole frame to a
strict nonempty prefix makes Frame::parse fail with an incomplete-frame
error whose needed count is strictly positive; no truncation parses
successfully. -/
theorem frame_parse_truncation (buf : List Nat) (f : Frame)
    (hok : Frame.parse buf = .ok (f, buf.length)) (k : Nat)
    (hk1 : 1 ≤ k) (hkN : k < buf.length) :
    ∃ m, Frame.parse (buf.take k) = .error (.incompleteFrame m) ∧ 0 < m := by
  rcases hph : parseHeader buf with e | header
  · simp only [Frame.parse, hph] at hok
    exact absurd hok (by simp)
  · simp only [Frame.parse, hph] at hok
    by_cases hU : USIZE_MAX < header.headerLen + header.payloadLen
    · rw [if_pos hU] at hok
      exact absurd hok (by simp)
    · rw [if_neg hU] at hok
      by_cases hbl : buf.length < header.headerLen + header.payloadLen
      · rw [if_pos hbl] at hok
        exact absurd hok (by simp)
      · rw [if_neg hbl] at hok
        simp only [Except.ok.injEq, Prod.mk.injEq] at hok
        have htot : header.headerLen + header.payloadLen = buf.length := hok.2
        have htk : (buf.take k).length = k := by
          simp only [List.length_take]
          omega
        rcases Nat.lt_or_ge k 2 with hk2 | hk2
        · refine ⟨2 - k, ?_, by omega⟩
          have hpk : parseHeader (buf.take k) = .error (.incompleteFrame (2 - k)) := by
            rw [parseHeader.eq_def, htk, if_pos hk2]
          simp [Frame.parse, hpk]
        · obtain ⟨hA, hB⟩ := parseHeader_truncation buf header hph k hk2 (by omega)
          rcases Nat.lt_or_ge k header.headerLen with hlt | hge
          · obtain ⟨m, hm, hm0⟩ := hB hlt
            exact ⟨m, by simp [Frame.parse, hm], hm0⟩
          · have hphk := hA hge
            refine ⟨header.headerLen + header.payloadLen - k, ?_, by omega⟩
            simp only [Frame.parse, hphk, htk]
            rw [if_neg hU, if_pos (by omega)]

/-- Witness for C3: a 4-byte text frame truncated to 3 bytes is reported
incomplete. -/
theorem frame_parse_truncation_witness :
    ∃ m, Frame.parse ([0x81, 0x02, 0x48, 0x69].take 3) =
      .error (.incompleteFrame m) ∧ 0 < m :=
  frame_parse_truncation [0x81, 0x02, 0x48, 0x69]
    ⟨true, false, false, false, .text, [0x48, 0x69]⟩ rfl 3 (by omega) (by decide)

theorem fromU8_no_unreachable (b : Nat) :
    OpCode.fromU8 b ≠ .error .unreachableBranch := by
  unfold OpCode.fromU8
  split_ifs <;> simp

theorem finishHeader_no_unreachable (buf : List Nat) (fin rsv1 rsv2 rsv3 : Bool)
    (opcode : OpCode) (masked : Bool) (payloadLen headerSize : Nat) :
    finishHeader buf fin rsv1 rsv2 rsv3 opcode masked payloadLen headerSize ≠
      .error .unreachableBranch := by
  simp only [finishHeader]
  split_ifs <;> simp

theorem parseHeader_no_unreachable (buf : List Nat) :
    parseHeader buf ≠ .error .unreachableBranch := by
  have hple : buf.getD 1 0 &&& 127 ≤ 127 := Nat.and_le_right
  rw [parseHeader.eq_def]
  by_cases h2 : buf.length < 2
  · rw [if_pos h2]
    simp
  · rw [if_neg h2]
    dsimp only
    rcases hopc : OpCode.fromU8 (buf.getD 0 0 &&& 15) with e | opcode
    · have hne := fromU8_no_unreachable (buf.getD 0 0 &&& 15)
      rw [hopc] at hne
      dsimp only
      intro hcon
      injection hcon with he
      exact hne (by rw [he])
    · dsimp only
      by_cases h125 : buf.getD 1 0 &&& 127 ≤ 125
      · rw [if_pos h125]
        exact finishHeader_no_unreachable _ _ _ _ _ _ _ _ _
      · rw [if_neg h125]
        by_cases h126 : buf.getD 1 0 &&& 127 = 126
        · rw [if_pos h126]
          by_cases h4 : buf.length < 4
          · rw [if_pos h4]
            simp
          · rw [if_neg h4]
            exact finishHeader_no_unreachable _ _ _ _ _ _ _ _ _
        · rw [if_neg h126]
          by_cases h127 : buf.getD 1 0 &&& 127 = 127
          · rw [if_pos h127]
            by_cases h10 : buf.length < 10
            · rw [if_pos h10]
              simp
            · rw [if_neg h10]
              by_cases hus : USIZE_MAX < u64FromBeBytes (buf.getD 2 0) (buf.getD 3 0)
                  (buf.getD 4 0) (buf.getD 5 0) (buf.getD 6 0) (buf.getD 7 0)
                  (buf.getD 8 0) (buf.getD 9 0)
              · rw [if_pos hus]
                simp
              · rw [if_neg hus]
                exact finishHeader_no_unreachable _ _ _ _ _ _ _ _ _
          · rw [if_neg h127]
            exfalso
            omega

/-- C10: the frame parsers are total functions of the input bytes: every
byte list yields either a parsed frame or a proper error value, and the
unreachable arm of the initial-length match (modelled by the marker error
Err.unreachableBranch) can never be taken, because the 7-bit initial
length byte1 AND 0x7F is always at most 127. -/
theorem parse_total_no_unreachable (buf : List Nat) :
    parseHeader buf ≠ .error .unreachableBranch ∧
    Frame.parse buf ≠ .error .unreachableBranch ∧
    ((∃ f n, Frame.parse buf = .ok (f, n)) ∨
      (∃ e, Frame.parse buf = .error e ∧ e ≠ .unreachableBranch)) := by
  have hparse : Frame.parse buf ≠ .error .unreachableBranch := by
    rw [Frame.parse.eq_def]
    rcases hph : parseHeader buf with e | header
    · have hne := parseHeader_no_unreachable buf
      rw [hph] at hne
      dsimp only
      intro hcon
      injection hcon with he
      exact hne (by rw [he])
    · dsimp only
      by_cases hU : USIZE_MAX < header.headerLen + header.payloadLen
      · rw [if_pos hU]
        simp
      · rw [if_neg hU]
        by_cases hbl : buf.length < header.headerLen + header.payloadLen
        · rw [if_pos hbl]
          simp
        · rw [if_neg hbl]
          simp
  refine ⟨parseHeader_no_unreachable buf, hparse, ?_⟩
  rcases hres : Frame.parse buf with e | ⟨f, n⟩
  · refine Or.inr ⟨e, rfl, ?_⟩
    intro hcon
    subst hcon
    exact hparse hres
  · exact Or.inl ⟨f, n, rfl⟩

/-- Result of the core UTF-8 run: either the whole input is valid, or the
first error is at byte index validUpTo, with error_len = none meaning the
input ended inside a possibly-valid multi-byte sequence (the Utf8Error
shape of std::str::from_utf8 that Utf8Validator::validate branches on). -/
inductive Utf8Result where
  | valid
  | invalid (validUpTo : Nat) (errorLen : Option Nat)
  deriving DecidableEq, Repr

/-- Shift an error position by the number of bytes already consumed. -/
def Utf8Result.shift (k : Nat) : Utf8Result → Utf8Result
  | .valid => .valid
  | .invalid v e => .invalid (v + k) e

/-- Continuation byte 0x80..=0xBF. -/
def isContByte (b : Nat) : Bool :=
  0x80 ≤ b ∧ b ≤ 0xBF

/-- Allowed second byte of a three-byte sequence led by b0
(E0: A0..BF, ED: 80..9F excluding surrogates, otherwise 80..BF). -/
def valid3Second (b0 b1 : Nat) : Bool :=
  if b0 = 0xE0 then 0xA0 ≤ b1 ∧ b1 ≤ 0xBF
  else if b0 = 0xED then 0x80 ≤ b1 ∧ b1 ≤ 0x9F
  else isContByte b1

/-- Allowed second byte of a four-byte sequence led by b0
(F0: 90..BF, F4: 80..8F, otherwise 80..BF). -/
def valid4Second (b0 b1 : Nat) : Bool :=
  if b0 = 0xF0 then 0x90 ≤ b1 ∧ b1 ≤ 0xBF
  else if b0 = 0xF4 then 0x80 ≤ b1 ∧ b1 ≤ 0x8F
  else isContByte b1

/-- Byte-level UTF-8 validation with the error classification of Rust's
core::str::run_utf8_validation: ASCII advances one byte; lead bytes
C2..DF, E0..EF and F0..F4 open 2-, 3- and 4-byte sequences whose follow
bytes are range-checked; running out of input inside a sequence yields
error_len = none (incomplete), a wrong byte yields Some(length of the
invalid prefix). -/
def utf8Check : List Nat → Utf8Result
  | [] => .valid
  | b :: rest =>
    if b < 0x80 then (utf8Check rest).shift 1
    else if 0xC2 ≤ b ∧ b ≤ 0xDF then
      match rest with
      | [] => .invalid 0 none
      | b1 :: rest1 =>
        if isContByte b1 then (utf8Check rest1).shift 2 else .invalid 0 (some 1)
    else if 0xE0 ≤ b ∧ b ≤ 0xEF then
      match rest with
      | [] => .invalid 0 none
      | b1 :: rest1 =>
        if valid3Second b b1 then
          match rest1 with
          | [] => .invalid 0 none
          | b2 :: rest2 =>
            if isContByte b2 then (utf8Check rest2).shift 3 else .invalid 0 (some 2)
        else .invalid 0 (some 1)
    else if 0xF0 ≤ b ∧ b ≤ 0xF4 then
      match rest with
      | [] => .invalid 0 none
      | b1 :: rest1 =>
        if valid4Second b b1 then
          match rest1 with
          | [] => .invalid 0 none
          | b2 :: rest2 =>
            if isContByte b2 then
              match rest2 with
              | [] => .invalid 0 none
              | b3 :: rest3 =>
                if isContByte b3 then (utf8Check rest3).shift 4
                else .invalid 0 (some 3)
            else .invalid 0 (some 2)
        else .invalid 0 (some 1)
    else .invalid 0 (some 1)

/-- Utf8Validator::validate (src/protocol/utf8.rs:46-87), with the
validator state given by its buffered incomplete bytes.  Returns the new
buffer on success.  The buffered bytes are prepended, the combined data
is checked, and an incomplete tail of at most 4 bytes is saved instead
of failing when is_final is false. -/
def Utf8Validator.validate (incomplete : List Nat) (data : List Nat) (isFinal : Bool) :
    Except Err (List Nat) :=
  let checkData := incomplete ++ data
  if checkData.isEmpty then .ok []
  else
    match utf8Check checkData with
    | .valid => .ok []
    | .invalid validUpTo errLen =>
      if ¬ isFinal ∧ errLen = none then
        let remaining := checkData.drop validUpTo
        if remaining.length ≤ 4 then .ok remaining
        else .error .invalidUtf8
      else .error .invalidUtf8

theorem shift_valid_iff (r : Utf8Result) (k : Nat) :
    r.shift k = .valid ↔ r = .valid := by
  cases r <;> simp [Utf8Result.shift]

theorem utf8Check_append_valid (a : List Nat) : ∀ (b : List Nat),
    utf8Check (a ++ b) = .valid →
    (utf8Check a = .valid ∧ utf8Check b = .valid) ∨
    (∃ v, utf8Check a = .invalid v none ∧ v ≤ a.length ∧ a.length ≤ v + 3 ∧
      utf8Check (a.drop v ++ b) = .valid) := by
  induction a using utf8Check.induct with
  | case1 =>
    intro b hab
    exact Or.inl ⟨rfl, by simpa using hab⟩
  | case2 c rest h ih =>
    intro b hab
    rw [List.cons_append] at hab
    rw [utf8Check.eq_def] at hab
    simp only [if_pos h] at hab
    rw [shift_valid_iff] at hab
    rcases ih b hab with ⟨h3, h4⟩ | ⟨v, hv, hv1, hv2, hv3⟩
    · refine Or.inl ⟨?_, h4⟩
      rw [utf8Check.eq_def]
      simp [if_pos h, h3, Utf8Result.shift]
    · refine Or.inr ⟨v + 1, ?_, by simpa using by omega, by simp; omega, ?_⟩
      · rw [utf8Check.eq_def]
        simp [if_pos h, hv, Utf8Result.shift]
      · simpa [List.drop_succ_cons] using hv3
  | case3 c h1 h2 =>
    intro b hab
    refine Or.inr ⟨0, ?_, by simp, by simp, by simpa using hab⟩
    rw [utf8Check.eq_def]
    simp [if_neg h1, if_pos h2]
  | case4 c h1 h2 c1 rest h3 ih =>
    intro b hab
    rw [List.cons_append, List.cons_append] at hab
    rw [utf8Check.eq_def] at hab
    simp only [if_neg h1, if_pos h2, h3, if_true] at hab
    rw [shift_valid_iff] at hab
    rcases ih b hab with ⟨h4, h5⟩ | ⟨v, hv, hv1, hv2, hv3⟩
    · refine Or.inl ⟨?_, h5⟩
      rw [utf8Check.eq_def]
      simp [if_neg h1, if_pos h2, h3, h4, Utf8Result.shift]
    · refine Or.inr ⟨v + 2, ?_, by simp; omega, by simp; omega, ?_⟩
      · rw [utf8Check.eq_def]
        simp [if_neg h1, if_pos h2, h3, hv, Utf8Result.shift]
      · simpa [List.drop_succ_cons] using hv3
  | case5 c h1 h2 c1 rest h3 =>
    intro b hab
    rw [List.cons_append, List.cons_append] at hab
    rw [utf8Check.eq_def] at hab
    simp [if_neg h1, if_pos h2, h3] at hab
  | case6 c h1 h2 h3 =>
    intro b hab
    refine Or.inr ⟨0, ?_, by simp, by simp, by simpa using hab⟩
    rw [utf8Check.eq_def]
    simp [if_neg h1, if_neg h2, if_pos h3]
  | case7 c h1 h2 h3 c1 h4 =>
    intro b hab
    refine Or.inr ⟨0, ?_, by simp, by simp, by simpa using hab⟩
    rw [utf8Check.eq_def]
    simp [if_neg h1, if_neg h2, if_pos h3, h4]
  | case8 c h1 h2 h3 c1 h4 c2 rest h5 ih =>
    intro b hab
    rw [List.cons_append, List.cons_append, List.cons_append] at hab
    rw [utf8Check.eq_def] at hab
    simp only [if_neg h1, if_neg h2, if_pos h3, h4, h5, if_true] at hab
    rw [shift_valid_iff] at hab
    rcases ih b hab with ⟨h6, h7⟩ | ⟨v, hv, hv1, hv2, hv3⟩
    · refine Or.inl ⟨?_, h7⟩
      rw [utf8Check.eq_def]
      simp [if_neg h1, if_neg h2, if_pos h3, h4, h5, h6, Utf8Result.shift]
    · refine Or.inr ⟨v + 3, ?_, by simp; omega, by simp; omega, ?_⟩
      · rw [utf8Check.eq_def]
        simp [if_neg h1, if_neg h2, if_pos h3, h4, h5, hv, Utf8Result.shift]
      · simpa [List.drop_succ_cons] using hv3
  | case9 c h1 h2 h3 c1 h4 c2 rest h5 =>
    intro b hab
    rw [List.cons_append, List.cons_append, List.cons_append] at hab
    rw [utf8Check.eq_def] at hab
    simp [if_neg h1, if_neg h2, if_pos h3, h4, h5] at hab
  | case10 c h1 h2 h3 c1 rest h4 =>
    intro b hab
    rw [List.cons_append, List.cons_append] at hab
    rw [utf8Check.eq_def] at hab
    simp [if_neg h1, if_neg h2, if_pos h3, h4] at hab
  | case11 c h1 h2 h3 h4 =>
    intro b hab
    refine Or.inr ⟨0, ?_, by simp, by simp, by simpa using hab⟩
    rw [utf8Check.eq_def]
    simp [if_neg h1, if_neg h2, if_neg h3, if_pos h4]
  | case12 c h1 h2 h3 h4 c1 h5 =>
    intro b hab
    refine Or.inr ⟨0, ?_, by simp, by simp, by simpa using hab⟩
    rw [utf8Check.eq_def]
    simp [if_neg h1, if_neg h2, if_neg h3, if_pos h4, h5]
  | case13 c h1 h2 h3 h4 c1 h5 c2 h6 =>
    intro b hab
    refine Or.inr ⟨0, ?_, by simp, by simp, by simpa using hab⟩
    rw [utf8Check.eq_def]
    simp [if_neg h1, if_neg h2, if_neg h3, if_pos h4, h5, h6]
  | case14 c h1 h2 h3 h4 c1 h5 c2 h6 c3 rest h7 ih =>
    intro b hab
    rw [List.cons_append, List.cons_append, List.cons_append, List.cons_append] at hab
    rw [utf8Check.eq_def] at hab
    simp only [if_neg h1, if_neg h2, if_neg h3, if_pos h4, h5, h6, h7, if_true] at hab
    rw [shift_valid_iff] at hab
    rcases ih b hab with ⟨h8, h9⟩ | ⟨v, hv, hv1, hv2, hv3⟩
    · refine Or.inl ⟨?_, h9⟩
      rw [utf8Check.eq_def]
      simp [if_neg h1, if_neg h2, if_neg h3, if_pos h4, h5, h6, h7, h8, Utf8Result.shift]
    · refine Or.inr ⟨v + 4, ?_, by simp; omega, by simp; omega, ?_⟩
      · rw [utf8Check.eq_def]
        simp [if_neg h1, if_neg h2, if_neg h3, if_pos h4, h5, h6, h7, hv, Utf8Result.shift]
      · simpa [List.drop_succ_cons] using hv3
  | case15 c h1 h2 h3 h4 c1 h5 c2 h6 c3 rest h7 =>
    intro b hab
    rw [List.cons_append, List.cons_append, List.cons_append, List.cons_append] at hab
    rw [utf8Check.eq_def] at hab
    simp [if_neg h1, if_neg h2, if_neg h3, if_pos h4, h5, h6, h7] at hab
  | case16 c h1 h2 h3 h4 c1 h5 c2 rest h6 =>
    intro b hab
    rw [List.cons_append, List.cons_append, List.cons_append] at hab
    rw [utf8Check.eq_def] at hab
    simp [if_neg h1, if_neg h2, if_neg h3, if_pos h4, h5, h6] at hab
  | case17 c h1 h2 h3 h4 c1 rest h5 =>
    intro b hab
    rw [List.cons_append, List.cons_append] at hab
    rw [utf8Check.eq_def] at hab
    simp [if_neg h1, if_neg h2, if_neg h3, if_pos h4, h5] at hab
  | case18 c rest h1 h2 h3 h4 =>
    intro b hab
    rw [List.cons_append] at hab
    rw [utf8Check.eq_def] at hab
    simp [if_neg h1, if_neg h2, if_neg h3, if_neg h4] at hab

/-- Feed the parts of a partitioned message through one validator in
order, threading the saved incomplete bytes, with is_final = true exactly
on the last part (the call pattern of MessageAssembler on Text fragments). -/
def feedParts (incomplete : List Nat) : List (List Nat) → Except Err (List Nat)
  | [] => .ok incomplete
  | [p] => Utf8Validator.validate incomplete p true
  | p :: rest => do
    let v ← Utf8Validator.validate incomplete p false
    feedParts v rest

theorem validate_step (incomplete p future : List Nat)
    (h : utf8Check (incomplete ++ p ++ future) = .valid) :
    ∃ v2, Utf8Validator.validate incomplete p false = .ok v2 ∧
      utf8Check (v2 ++ future) = .valid := by
  rcases utf8Check_append_valid (incomplete ++ p) future h with
    ⟨hva, hvb⟩ | ⟨v, hv, hv1, hv2, hv3⟩
  · refine ⟨[], ?_, by simpa using hvb⟩
    unfold Utf8Validator.validate
    by_cases he : (incomplete ++ p).isEmpty
    · simp [he]
    · simp [he, hva]
  · refine ⟨(incomplete ++ p).drop v, ?_, hv3⟩
    have hne : ((incomplete ++ p).isEmpty) = false := by
      rcases hemp : incomplete ++ p with _ | ⟨x, xs⟩
      · rw [hemp] at hv
        simp [utf8Check] at hv
      · simp
    simp only [Utf8Validator.validate, hne, Bool.false_eq_true, if_false, hv]
    rw [if_pos (by simp)]
    rw [if_pos (by simp only [List.length_drop]; omega)]

theorem validate_final (incomplete p : List Nat)
    (h : utf8Check (incomplete ++ p) = .valid) :
    Utf8Validator.validate incomplete p true = .ok [] := by
  unfold Utf8Validator.validate
  by_cases he : (incomplete ++ p).isEmpty
  · simp [he]
  · simp [he, h]

theorem feedParts_ok (parts : List (List Nat)) : ∀ (incomplete : List Nat),
    parts ≠ [] →
    utf8Check (incomplete ++ parts.flatten) = .valid →
    feedParts incomplete parts = .ok [] := by
  induction parts with
  | nil => simp
  | cons p rest ih =>
    intro incomplete _ h
    cases rest with
    | nil =>
      simp only [feedParts]
      apply validate_final
      simpa using h
    | cons q rest2 =>
      obtain ⟨v2, hv2, hfut⟩ := validate_step incomplete p ((q :: rest2).flatten) (by
        rw [List.append_assoc]
        simpa using h)
      simp only [feedParts, hv2, Except.bind]
      exact ih v2 (by simp) hfut

/-- C4: for any byte string that is valid UTF-8 and any partition of it
into parts, feeding each part in order to a fresh Utf8Validator with
is_final = true only for the last part succeeds on every call; and for
any byte string that is not valid UTF-8, validating it whole with
is_final = true fails with Err::InvalidUtf8. -/
theorem utf8_validator_partition_correct (S : List Nat) (parts : List (List Nat)) :
    (utf8Check S = .valid → parts.flatten = S → parts ≠ [] →
      feedParts [] parts = .ok []) ∧
    (utf8Check S ≠ .valid →
      Utf8Validator.validate [] S true = .error .invalidUtf8) := by
  constructor
  · intro hS hjoin hne
    exact feedParts_ok parts [] hne (by simpa [hjoin] using hS)
  · intro hS
    unfold Utf8Validator.validate
    simp only [List.nil_append]
    by_cases he : S.isEmpty = true
    · exfalso
      apply hS
      rw [List.isEmpty_iff] at he
      rw [he]
      rfl
    · rcases hr : utf8Check S with _ | ⟨v, e⟩
      · exact absurd hr hS
      · simp [he, hr]

/-- Witness for C4: a 4-byte emoji split across two fragments validates
incrementally; a lone continuation byte fails as a whole final fragment. -/
theorem utf8_validator_partition_witness :
    feedParts [] [[0xF0, 0x9F], [0x8E, 0x89]] = .ok [] ∧
    Utf8Validator.validate [] [0x80] true = .error .invalidUtf8 :=
  ⟨(utf8_validator_partition_correct [0xF0, 0x9F, 0x8E, 0x89]
      [[0xF0, 0x9F], [0x8E, 0x89]]).1 (by decide) (by decide) (by decide),
   (utf8_validator_partition_correct [0x80] [[0x80]]).2 (by decide)⟩

/-- Reassembly-relevant configured limits (struct Limits, src/config.rs). -/
structure Limits where
  maxMessageSize : Nat
  maxFragmentCount : Nat
  deriving DecidableEq, Repr

/-- Limits::default: 64 MiB messages, 128 fragments (src/config.rs:34-42). -/
def Limits.defaults : Limits :=
  ⟨64 * 1024 * 1024, 128⟩

/-- Limits::check_message_size (src/config.rs:121-130). -/
def Limits.checkMessageSize (l : Limits) (size : Nat) : Except Err Unit :=
  if size > l.maxMessageSize then .error (.messageTooLarge size l.maxMessageSize)
  else .ok ()

/-- Limits::check_fragment_count (src/config.rs:153-162). -/
def Limits.checkFragmentCount (l : Limits) (count : Nat) : Except Err Unit :=
  if count > l.maxFragmentCount then .error (.tooManyFragments count l.maxFragmentCount)
  else .ok ()

/-- MessageAssembler state (src/protocol/assembler.rs:11-18): reassembly
buffer, fragment count, first-fragment opcode, running total size, and
the optional UTF-8 validator represented by its buffered bytes. -/
structure MessageAssembler where
  buffer : List Nat
  fragmentCount : Nat
  opcode : Option OpCode
  totalSize : Nat
  utf8Validator : Option (List Nat)
  deriving DecidableEq, Repr

/-- MessageAssembler::new (src/protocol/assembler.rs:21-30). -/
def MessageAssembler.new : MessageAssembler :=
  ⟨[], 0, none, 0, none⟩

/-- A fully assembled message (src/protocol/assembler.rs:99-102). -/
structure AssembledMessage where
  opcode : OpCode
  payload : List Nat
  deriving DecidableEq, Repr

/-- MessageAssembler::push (src/protocol/assembler.rs:34-83) as a pure
state transformer: the new state and the completed message, if any.
Control frames return Ok(None) before any state is touched.  The
opcode.take().unwrap() on the FIN path cannot panic because the opcode
was just proven present; the model expresses this by carrying the
unwrapped opcode through the sequencing match.  An Err return in the
source leaves a partially-updated assembler behind, but the Connection
treats every such error as fatal, so the model's error carries no state. -/
def MessageAssembler.push (limits : Limits) (s : MessageAssembler) (frame : Frame) :
    Except Err (MessageAssembler × Option AssembledMessage) :=
  if frame.opcode.isControl then .ok (s, none)
  else
    let step : Except Err (OpCode × Option (List Nat)) :=
      if frame.opcode = .continuation then
        match s.opcode with
        | none => .error (.protocolViolation (strBytes "Unexpected continuation frame"))
        | some opc => .ok (opc, s.utf8Validator)
      else
        match s.opcode with
        | some _ => .error (.protocolViolation (strBytes "Expected continuation frame"))
        | none =>
          .ok (frame.opcode,
            if frame.opcode = .text then some ([] : List Nat) else s.utf8Validator)
    match step with
    | .error e => .error e
    | .ok (opcode1, utf81) =>
      match limits.checkFragmentCount (s.fragmentCount + 1) with
      | .error e => .error e
      | .ok _ =>
        let newSize := s.totalSize + frame.payload.length
        match limits.checkMessageSize newSize with
        | .error e => .error e
        | .ok _ =>
          let utf8res :=
            match utf81 with
            | some v => (Utf8Validator.validate v frame.payload frame.fin).map some
            | none => .ok none
          match utf8res with
          | .error e => .error e
          | .ok utf82 =>
            if frame.fin then
              .ok (⟨[], 0, none, 0, none⟩, some ⟨opcode1, s.buffer ++ frame.payload⟩)
            else
              .ok (⟨s.buffer ++ frame.payload, s.fragmentCount + 1, some opcode1,
                newSize, utf82⟩, none)

/-- Counterexample for C2 as stated: pushing a Ping control frame while a
fragmented text message is in progress yields Ok with NO message — the
control frame itself is not returned by MessageAssembler::push. -/
theorem assembler_push_control_counterexample :
    MessageAssembler.push Limits.defaults ⟨[72, 101], 1, some .text, 2, some []⟩
        (Frame.new true .ping [112, 105, 110, 103]) =
      .ok (⟨[72, 101], 1, some .text, 2, some []⟩, none) ∧
    (Except.ok ((⟨[72, 101], 1, some .text, 2, some []⟩ : MessageAssembler), none) :
        Except Err (MessageAssembler × Option AssembledMessage)) ≠
      .ok (⟨[72, 101], 1, some .text, 2, some []⟩,
        some ⟨.ping, [112, 105, 110, 103]⟩) := by
  constructor
  · rfl
  · decide

/-- C2 (amended): for every control frame, MessageAssembler::push returns
Ok(None) immediately — no assembled message — and leaves the whole
reassembly state (buffer, first-fragment opcode, fragment count, running
total size, UTF-8 validator) unchanged, including mid-assembly.  The
control frame itself is surfaced to callers by Connection::recv, which
dispatches control opcodes before the assembler is involved. -/
theorem assembler_push_control_preserves_state (limits : Limits)
    (s : MessageAssembler) (f : Frame) (hc : f.opcode.isControl = true) :
    MessageAssembler.push limits s f = .ok (s, none) := by
  unfold MessageAssembler.push
  rw [if_pos hc]

/-- Witness for C2 (amended) at a mid-assembly state and a Pong frame. -/
theorem assembler_push_control_preserves_state_witness :
    MessageAssembler.push Limits.defaults ⟨[1, 2, 3], 2, some .binary, 3, none⟩
        (Frame.new true .pong [7]) =
      .ok (⟨[1, 2, 3], 2, some .binary, 3, none⟩, none) :=
  assembler_push_control_preserves_state Limits.defaults
    ⟨[1, 2, 3], 2, some .binary, 3, none⟩ (Frame.new true .pong [7]) (by decide)

/-- MessageFragmenter state (src/connection/fragmenter.rs:10-16). -/
structure MessageFragmenter where
  payload : List Nat
  opcode : OpCode
  fragmentSize : Nat
  offset : Nat
  isFirst : Bool
  deriving DecidableEq, Repr

/-- MessageFragmenter::new: fragment_size clamped to at least 1
(src/connection/fragmenter.rs:22-30). -/
def MessageFragmenter.new (payload : List Nat) (opcode : OpCode)
    (fragmentSize : Nat) : MessageFragmenter :=
  ⟨payload, opcode, max fragmentSize 1, 0, true⟩

/-- Iterator::next for MessageFragmenter (src/connection/fragmenter.rs:50-75). -/
def MessageFragmenter.next (s : MessageFragmenter) :
    Option (Frame × MessageFragmenter) :=
  if s.payload.length ≤ s.offset then
    if s.isFirst ∧ s.payload.isEmpty then
      some (Frame.new true s.opcode [], { s with isFirst := false })
    else none
  else
    let remaining := s.payload.length - s.offset
    let chunkSize := min remaining s.fragmentSize
    let isFinal := decide (s.payload.length ≤ s.offset + chunkSize)
    let chunk := (s.payload.drop s.offset).take chunkSize
    let opcode := if s.isFirst then s.opcode else OpCode.continuation
    some (Frame.new isFinal opcode chunk,
      { s with offset := s.offset + chunkSize, isFirst := false })

/-- Drain the fragmenter iterator with explicit fuel (the iterator of a
fragmentSize ≥ 1 fragmenter ends within payload.length + 1 steps). -/
def MessageFragmenter.frames (s : MessageFragmenter) : Nat → List Frame
  | 0 => []
  | fuel + 1 =>
    match s.next with
    | none => []
    | some (f, s2) => f :: s2.frames fuel

/-- Full frame sequence the fragmenter yields for a message. -/
def fragmentFrames (payload : List Nat) (opcode : OpCode) (fragmentSize : Nat) :
    List Frame :=
  (MessageFragmenter.new payload opcode fragmentSize).frames (payload.length + 1)

/-- Every frame in the list carries the Continuation opcode. -/
def allContinuation (l : List Frame) : Prop :=
  ∀ f ∈ l, f.opcode = OpCode.continuation

/-- Exactly the last frame of a nonempty list has fin = true. -/
def finOnlyLast : List Frame → Prop
  | [] => True
  | [f] => f.fin = true
  | f :: rest => f.fin = false ∧ finOnlyLast rest

/-- Concatenation of the frames' payloads. -/
def payloadsJoin (l : List Frame) : List Nat :=
  (l.map Frame.payload).flatten

theorem fragmenter_loop (n : Nat) : ∀ (pl : List Nat) (off : Nat) (op : OpCode)
    (fs : Nat) (first : Bool), 1 ≤ fs → off < pl.length → pl.length - off ≤ n →
    ∃ f0 rest,
      MessageFragmenter.frames ⟨pl, op, fs, off, first⟩ n = f0 :: rest ∧
      f0.opcode = (if first then op else OpCode.continuation) ∧
      allContinuation rest ∧
      finOnlyLast (f0 :: rest) ∧
      payloadsJoin (f0 :: rest) = pl.drop off ∧
      (∀ f ∈ f0 :: rest, f.payload.length ≤ fs) := by
  induction n with
  | zero =>
    intro pl off op fs first hfs hoff hn
    exfalso
    omega
  | succ n ih =>
    intro pl off op fs first hfs hoff hn
    have hnext : MessageFragmenter.next ⟨pl, op, fs, off, first⟩ =
        some (Frame.new (decide (pl.length ≤ off + min (pl.length - off) fs))
          (if first then op else OpCode.continuation)
          ((pl.drop off).take (min (pl.length - off) fs)),
          ⟨pl, op, fs, off + min (pl.length - off) fs, false⟩) := by
      rw [MessageFragmenter.next]
      rw [if_neg (by simp; omega)]
    by_cases hfinal : pl.length ≤ off + min (pl.length - off) fs
    · -- last chunk
      refine ⟨Frame.new true (if first then op else OpCode.continuation)
          ((pl.drop off).take (min (pl.length - off) fs)), [], ?_, by simp [Frame.new], ?_, ?_, ?_, ?_⟩
      · rw [MessageFragmenter.frames, hnext]
        simp only [decide_eq_true hfinal]
        congr 1
        cases n with
        | zero => rfl
        | succ m =>
          rw [MessageFragmenter.frames, MessageFragmenter.next]
          rw [if_pos (by simp; omega)]
          rw [if_neg (by simp)]
      · intro f hf
        simp at hf
      · simp [finOnlyLast, Frame.new]
      · simp only [payloadsJoin, List.map_cons, List.map_nil, List.flatten,
          List.append_nil]
        have : (pl.drop off).length ≤ min (pl.length - off) fs := by
          simp [List.length_drop]
          omega
        simp [Frame.new, List.take_of_length_le this, List.flatten]
      · intro f hf
        simp at hf
        subst hf
        simp [Frame.new, List.length_take]
    · -- middle chunk
      have hchunk1 : 1 ≤ min (pl.length - off) fs := by omega
      obtain ⟨f1, rest1, hfr, hop1, hcont1, hfin1, hjoin1, hlen1⟩ :=
        ih pl (off + min (pl.length - off) fs) op fs false hfs (by omega) (by omega)
      refine ⟨Frame.new false (if first then op else OpCode.continuation)
          ((pl.drop off).take (min (pl.length - off) fs)), f1 :: rest1,
          ?_, by simp [Frame.new], ?_, ?_, ?_, ?_⟩
      · rw [MessageFragmenter.frames, hnext]
        simp only [decide_eq_false hfinal]
        rw [hfr]
      · intro f hf
        rcases List.mem_cons.mp hf with h | h
        · subst h
          simpa [Frame.new] using hop1
        · exact hcont1 f h
      · exact ⟨by simp [Frame.new], hfin1⟩
      · simp only [payloadsJoin, List.map_cons, List.flatten_cons] at hjoin1 ⊢
        simp only [Frame.new]
        rw [hjoin1, ← List.drop_drop, List.take_append_drop]
      · intro f hf
        rcases List.mem_cons.mp hf with h | h
        · subst h
          simp [Frame.new, List.length_take]
        · exact hlen1 f h

/-- C8: for every payload, opcode and fragment_size ≥ 1 the fragmenter
yields a sequence whose first frame carries the given opcode, all later
frames carry Continuation, exactly the last frame has fin = true, the
payloads concatenate to the input with each at most fragment_size bytes,
and an empty payload yields exactly one empty final frame. -/
theorem fragmenter_spec (payload : List Nat) (opcode : OpCode) (fragmentSize : Nat)
    (h1 : 1 ≤ fragmentSize) :
    ∃ f0 rest, fragmentFrames payload opcode fragmentSize = f0 :: rest ∧
      f0.opcode = opcode ∧
      allContinuation rest ∧
      finOnlyLast (f0 :: rest) ∧
      payloadsJoin (f0 :: rest) = payload ∧
      (∀ f ∈ f0 :: rest, f.payload.length ≤ fragmentSize) ∧
      (payload = [] → f0 :: rest = [Frame.new true opcode []]) := by
  have hmax : max fragmentSize 1 = fragmentSize := by omega
  rcases hpl : payload with _ | ⟨b, bs⟩
  · refine ⟨Frame.new true opcode [], [], rfl, rfl, ?_, ?_, ?_, ?_, fun _ => rfl⟩
    · intro f hf
      simp at hf
    · simp [finOnlyLast, Frame.new]
    · simp [payloadsJoin, Frame.new]
    · intro f hf
      simp at hf
      subst hf
      simp [Frame.new]
  · obtain ⟨f0, rest, hfr, hop, hcont, hfin, hjoin, hlen⟩ :=
      fragmenter_loop ((b :: bs).length + 1) (b :: bs) 0 opcode fragmentSize true
        h1 (by simp) (by omega)
    refine ⟨f0, rest, ?_, by simpa using hop, hcont, hfin, by simpa using hjoin,
      hlen, ?_⟩
    · rw [fragmentFrames, MessageFragmenter.new, hmax]
      exact hfr
    · intro hcon
      simp at hcon

/-- Witness for C8 on a 3-byte payload split with fragment_size 2. -/
theorem fragmenter_spec_witness :
    ∃ f0 rest, fragmentFrames [1, 2, 3] .binary 2 = f0 :: rest ∧
      f0.opcode = .binary ∧
      allContinuation rest ∧
      finOnlyLast (f0 :: rest) ∧
      payloadsJoin (f0 :: rest) = [1, 2, 3] ∧
      (∀ f ∈ f0 :: rest, f.payload.length ≤ 2) ∧
      ([1, 2, 3] = ([] : List Nat) → f0 :: rest = [Frame.new true .binary []]) :=
  fragmenter_spec [1, 2, 3] .binary 2 (by decide)

/-- RSV-bit usage declaration of an extension (struct RsvBits,
src/extensions/mod.rs:171-179). -/
structure RsvBits where
  rsv1 : Bool
  rsv2 : Bool
  rsv3 : Bool
  deriving DecidableEq, Repr

/-- RsvBits::NONE (src/extensions/mod.rs:183-187). -/
def RsvBits.NONE : RsvBits :=
  ⟨false, false, false⟩

/-- RsvBits::conflicts_with (src/extensions/mod.rs:197-199). -/
def RsvBits.conflictsWith (a b : RsvBits) : Bool :=
  (a.rsv1 && b.rsv1) || (a.rsv2 && b.rsv2) || (a.rsv3 && b.rsv3)

/-- An extension as the registry observes it: the header-token name and
the rsv_bits() claim of the Extension trait object. -/
structure ExtObj where
  name : List Nat
  rsv : RsvBits
  deriving DecidableEq, Repr

/-- ExtensionRegistry (src/extensions/mod.rs:344-352), restricted to the
fields that add reads and writes: the ordered registered extensions and
the combined RSV-bit usage. -/
structure ExtensionRegistry where
  extensions : List ExtObj
  usedRsvBits : RsvBits
  deriving DecidableEq, Repr

/-- ExtensionRegistry::new (src/extensions/mod.rs:356-358). -/
def ExtensionRegistry.new : ExtensionRegistry :=
  ⟨[], RsvBits.NONE⟩

/-- ExtensionRegistry::add (src/extensions/mod.rs:366-382). -/
def ExtensionRegistry.add (r : ExtensionRegistry) (e : ExtObj) :
    Except Err ExtensionRegistry :=
  if r.usedRsvBits.conflictsWith e.rsv then
    .error (.invalidExtensionErr (e.name ++ strBytes " RSV bits conflict"))
  else
    .ok ⟨r.extensions ++ [e],
      ⟨r.usedRsvBits.rsv1 || e.rsv.rsv1, r.usedRsvBits.rsv2 || e.rsv.rsv2,
       r.usedRsvBits.rsv3 || e.rsv.rsv3⟩⟩

/-- Register a sequence of extensions in order. -/
def ExtensionRegistry.addAll (r : ExtensionRegistry) :
    List ExtObj → Except Err ExtensionRegistry
  | [] => .ok r
  | e :: rest =>
    match r.add e with
    | .error err => .error err
    | .ok r2 => r2.addAll rest

/-- Union of the RSV-bit claims of a list of extensions. -/
def unionClaims : List ExtObj → RsvBits
  | [] => RsvBits.NONE
  | e :: rest =>
    let u := unionClaims rest
    ⟨e.rsv.rsv1 || u.rsv1, e.rsv.rsv2 || u.rsv2, e.rsv.rsv3 || u.rsv3⟩

theorem unionClaims_append (l : List ExtObj) (e : ExtObj) :
    unionClaims (l ++ [e]) =
      ⟨(unionClaims l).rsv1 || e.rsv.rsv1, (unionClaims l).rsv2 || e.rsv.rsv2,
       (unionClaims l).rsv3 || e.rsv.rsv3⟩ := by
  induction l with
  | nil => simp [unionClaims, RsvBits.NONE]
  | cons a rest ih => simp [unionClaims, ih, Bool.or_assoc]

theorem unionClaims_no_conflict (l : List ExtObj) (x : RsvBits)
    (h : (unionClaims l).conflictsWith x = false) :
    ∀ a ∈ l, a.rsv.conflictsWith x = false := by
  induction l with
  | nil =>
    intro a ha
    simp at ha
  | cons e rest ih =>
    intro a ha
    simp only [unionClaims, RsvBits.conflictsWith] at h
    simp only [Bool.or_eq_false_iff, Bool.and_eq_false_iff] at h
    rcases List.mem_cons.mp ha with rfl | hmem
    · simp only [RsvBits.conflictsWith, Bool.or_eq_false_iff, Bool.and_eq_false_iff]
      tauto
    · apply ih ?_ a hmem
      simp only [RsvBits.conflictsWith, Bool.or_eq_false_iff, Bool.and_eq_false_iff]
      tauto

/-- Registry invariant: the cached bitmap is the union of the registered
claims, and no two registered extensions claim the same RSV bit. -/
def RegistryInv (r : ExtensionRegistry) : Prop :=
  r.usedRsvBits = unionClaims r.extensions ∧
  List.Pairwise (fun a b => a.rsv.conflictsWith b.rsv = false) r.extensions

theorem add_preserves_inv (r : ExtensionRegistry) (e : ExtObj)
    (r2 : ExtensionRegistry) (hinv : RegistryInv r) (h : r.add e = .ok r2) :
    RegistryInv r2 := by
  unfold ExtensionRegistry.add at h
  by_cases hc : r.usedRsvBits.conflictsWith e.rsv = true
  · rw [if_pos hc] at h
    exact absurd h (by simp)
  · rw [if_neg hc] at h
    injection h with h2
    subst h2
    have hcf : (unionClaims r.extensions).conflictsWith e.rsv = false := by
      rw [← hinv.1]
      exact Bool.not_eq_true _ ▸ (Bool.eq_false_iff.mpr hc)
    constructor
    · simp only [unionClaims_append, ← hinv.1]
    · rw [List.pairwise_append]
      refine ⟨hinv.2, by simp, ?_⟩
      intro a ha b hb
      simp at hb
      subst hb
      exact unionClaims_no_conflict r.extensions _ hcf a ha

theorem addAll_preserves_inv (exts : List ExtObj) :
    ∀ (r r2 : ExtensionRegistry), RegistryInv r → r.addAll exts = .ok r2 →
    RegistryInv r2 := by
  induction exts with
  | nil =>
    intro r r2 hinv h
    simp only [ExtensionRegistry.addAll] at h
    injection h with h2
    subst h2
    exact hinv
  | cons e rest ih =>
    intro r r2 hinv h
    simp only [ExtensionRegistry.addAll] at h
    rcases hadd : r.add e with err | rmid
    · rw [hadd] at h
      exact absurd h (by simp)
    · rw [hadd] at h
      exact ih rmid r2 (add_preserves_inv r e rmid hinv hadd) h

/-- C9: after any sequence of successful ExtensionRegistry::add calls
starting from the empty registry, the registered extensions' RSV-bit
claims are pairwise disjoint, and add rejects (with an
invalid-extension error) any extension whose claim intersects the union
of the already-registered claims. -/
theorem registry_rsv_invariant (exts : List ExtObj) (r : ExtensionRegistry)
    (h : ExtensionRegistry.new.addAll exts = .ok r) :
    List.Pairwise (fun a b => a.rsv.conflictsWith b.rsv = false) r.extensions ∧
    ∀ e, (unionClaims r.extensions).conflictsWith e.rsv = true →
      ∃ msg, r.add e = .error (.invalidExtensionErr msg) := by
  have hinv : RegistryInv r :=
    addAll_preserves_inv exts ExtensionRegistry.new r ⟨rfl, List.Pairwise.nil⟩ h
  refine ⟨hinv.2, ?_⟩
  intro e hc
  refine ⟨e.name ++ strBytes " RSV bits conflict", ?_⟩
  unfold ExtensionRegistry.add
  rw [if_pos (by rw [hinv.1]; exact hc)]

/-- Extension claiming RSV1, standing for permessage-deflate. -/
def rsv1Ext : ExtObj :=
  ⟨[100], ⟨true, false, false⟩⟩

/-- Registry holding just rsv1Ext. -/
def rsv1Registry : ExtensionRegistry :=
  ⟨[rsv1Ext], ⟨true, false, false⟩⟩

/-- Witness for C9: permessage-deflate claims RSV1; a second RSV1
extension is rejected. -/
theorem registry_rsv_invariant_witness :
    ∃ msg, rsv1Registry.add ⟨[101], ⟨true, false, false⟩⟩ =
      .error (.invalidExtensionErr msg) :=
  (registry_rsv_invariant [rsv1Ext] rsv1Registry rfl).2
    ⟨[101], ⟨true, false, false⟩⟩ (by decide)

/-- Status values the flate2 decoder can report per call. -/
inductive FlateStatus where
  | ok
  | bufError
  | streamEnd
  deriving DecidableEq, Repr

/-- One observable step of the external flate2 Decompress stream: how many
input bytes it consumed, how many output bytes it produced into the 4096
byte window, and the status it returned.  The DEFLATE algorithm itself is
an external crate; the decode loop of DeflateExtension::decompress treats
it as exactly this oracle. -/
structure DecodeStep where
  consumed : Nat
  produced : Nat
  status : FlateStatus
  deriving DecidableEq, Repr

/-- MAX_COMPRESSION_ITERATIONS (src/extensions/deflate.rs:12). -/
def MAX_COMPRESSION_ITERATIONS : Nat := 100000

/-- The decode loop of DeflateExtension::decompress
(src/extensions/deflate.rs:274-325), tracking the decompressed byte
count.  Arguments mirror the loop state: remaining oracle steps, input
position, output length so far, iteration counter.  An exhausted oracle
behaves as a zero-progress call, which the loop treats as termination. -/
def decompressLoop (maxSize maxRatioSize inputLen : Nat) :
    List DecodeStep → Nat → Nat → Nat → Except Err Nat
  | steps, inputPos, outLen, iterations =>
    if MAX_COMPRESSION_ITERATIONS < iterations + 1 then
      .error (.extensionFailure (strBytes "Decompression exceeded max iterations"))
    else if inputLen ≤ inputPos then .ok outLen
    else
      match steps with
      | [] =>
        if maxSize < outLen then
          .error (.extensionFailure (strBytes "Decompressed size exceeds limit"))
        else if maxRatioSize < outLen then
          .error (.extensionFailure (strBytes "Decompression ratio exceeded"))
        else .ok outLen
      | s :: rest =>
        let outLen2 := outLen + s.produced
        let inputPos2 := inputPos + s.consumed
        if maxSize < outLen2 then
          .error (.extensionFailure (strBytes "Decompressed size exceeds limit"))
        else if maxRatioSize < outLen2 then
          .error (.extensionFailure (strBytes "Decompression ratio exceeded"))
        else if s.status = .streamEnd ∨ s.produced = 0 then .ok outLen2
        else decompressLoop maxSize maxRatioSize inputLen rest inputPos2 outLen2
          (iterations + 1)

/-- MAX_DECOMPRESSION_RATIO (src/extensions/deflate.rs:13). -/
def DECOMPRESSION_RATIO_CAP : Nat := 100

/-- DeflateExtension::decompress (src/extensions/deflate.rs:258-334) at the
byte-count level: empty input returns empty output; otherwise the 4-byte
DEFLATE trailer is appended to the input and the decode loop runs with
the absolute cap and the 100x relative cap. -/
def DeflateExtension.decompress (maxDecompressedSize : Nat)
    (steps : List DecodeStep) (dataLen : Nat) : Except Err Nat :=
  if dataLen = 0 then .ok 0
  else
    decompressLoop maxDecompressedSize (dataLen * DECOMPRESSION_RATIO_CAP)
      (dataLen + 4) steps 0 0 0

theorem decompressLoop_bounds (maxSize maxRatioSize inputLen : Nat)
    (steps : List DecodeStep) : ∀ (inputPos outLen iterations n : Nat),
    outLen ≤ maxSize → outLen ≤ maxRatioSize →
    decompressLoop maxSize maxRatioSize inputLen steps inputPos outLen iterations =
      .ok n →
    n ≤ maxSize ∧ n ≤ maxRatioSize := by
  induction steps with
  | nil =>
    intro inputPos outLen iterations n h1 h2 h
    rw [decompressLoop] at h
    split_ifs at h <;> simp_all
  | cons s rest ih =>
    intro inputPos outLen iterations n h1 h2 h
    rw [decompressLoop] at h
    by_cases hiter : MAX_COMPRESSION_ITERATIONS < iterations + 1
    · rw [if_pos hiter] at h
      exact absurd h (by simp)
    · rw [if_neg hiter] at h
      by_cases hin : inputLen ≤ inputPos
      · rw [if_pos hin] at h
        injection h with h3
        subst h3
        exact ⟨h1, h2⟩
      · rw [if_neg hin] at h
        by_cases hs1 : maxSize < outLen + s.produced
        · rw [if_pos hs1] at h
          exact absurd h (by simp)
        · rw [if_neg hs1] at h
          by_cases hs2 : maxRatioSize < outLen + s.produced
          · rw [if_pos hs2] at h
            exact absurd h (by simp)
          · rw [if_neg hs2] at h
            by_cases hs3 : s.status = .streamEnd ∨ s.produced = 0
            · rw [if_pos hs3] at h
              injection h with h3
              omega
            · rw [if_neg hs3] at h
              exact ih _ _ _ _ (by omega) (by omega) h

/-- C6: whenever the permessage-deflate decode loop returns successfully,
the decompressed byte count respects both bomb mitigations: it is at most
the configured absolute cap and at most 100 times the compressed input
size; a step that would exceed either cap makes the loop fail instead. -/
theorem deflate_decompress_bounded (maxDecompressedSize dataLen n : Nat)
    (steps : List DecodeStep)
    (h : DeflateExtension.decompress maxDecompressedSize steps dataLen = .ok n) :
    n ≤ maxDecompressedSize ∧ n ≤ dataLen * DECOMPRESSION_RATIO_CAP := by
  unfold DeflateExtension.decompress at h
  by_cases hz : dataLen = 0
  · rw [if_pos hz] at h
    injection h with h2
    omega
  · rw [if_neg hz] at h
    exact decompressLoop_bounds maxDecompressedSize
      (dataLen * DECOMPRESSION_RATIO_CAP) (dataLen + 4) steps 0 0 0 n
      (by omega) (by omega) h

/-- Witness for C6: a run that inflates 6 input bytes to 500 output bytes
in one step stays within the 64 MiB absolute cap and the 100x ratio cap. -/
theorem deflate_decompress_bounded_witness :
    500 ≤ 64 * 1024 * 1024 ∧ 500 ≤ 6 * DECOMPRESSION_RATIO_CAP :=
  deflate_decompress_bounded (64 * 1024 * 1024) 6 500
    [⟨10, 500, .streamEnd⟩] (by decide)

/-- ASCII lowercase of one byte (str::to_lowercase on ASCII header names). -/
def toLowerByte (b : Nat) : Nat :=
  if 65 ≤ b ∧ b ≤ 90 then b + 32 else b

/-- Lowercased byte string. -/
def toLowerStr (s : List Nat) : List Nat :=
  s.map toLowerByte

/-- ASCII whitespace as recognised by str::trim on header text. -/
def isWsByte (b : Nat) : Bool :=
  b = 32 ∨ b = 9 ∨ b = 10 ∨ b = 13

/-- str::trim: strip leading and trailing whitespace. -/
def trimStr (s : List Nat) : List Nat :=
  ((s.dropWhile isWsByte).reverse.dropWhile isWsByte).reverse

/-- str::split_once(':'): text before the first colon and text after it,
or none when no colon occurs. -/
def splitOnceColon : List Nat → Option (List Nat × List Nat)
  | [] => none
  | b :: rest =>
    if b = 58 then some ([], rest)
    else
      match splitOnceColon rest with
      | none => none
      | some (pre, post) => some (b :: pre, post)

/-- Header-map membership (HashMap::contains_key). -/
def containsKey (m : List (List Nat × List Nat)) (k : List Nat) : Bool :=
  m.any (fun p => p.1 == k)

/-- Header-map insertion (HashMap::insert overwrites the previous value
for the key); keys stay unique, so later lookups see the newest value. -/
def insertKV (m : List (List Nat × List Nat)) (k v : List Nat) :
    List (List Nat × List Nat) :=
  m.filter (fun p => !(p.1 == k)) ++ [(k, v)]

/-- Header-map lookup (HashMap::get). -/
def getHeader (m : List (List Nat × List Nat)) (k : List Nat) : Option (List Nat) :=
  (m.find? (fun p => p.1 == k)).map Prod.snd

/-- parse_headers (src/protocol/handshake.rs:26-56): accumulate headers
into a case-insensitive map; break at the first empty line; skip lines
without a colon; when a security list is supplied, fail on a repeated
security-critical header name. -/
def parseHeaders (security : Option (List (List Nat))) :
    List (List Nat) → List (List Nat × List Nat) →
    Except Err (List (List Nat × List Nat))
  | [], headers => .ok headers
  | line :: rest, headers =>
    if line = [] then .ok headers
    else
      match splitOnceColon line with
      | none => parseHeaders security rest headers
      | some (name, value) =>
        let nameLower := toLowerStr (trimStr name)
        let dup :=
          match security with
          | some sec => sec.contains nameLower && containsKey headers nameLower
          | none => false
        if dup then
          .error (.invalidHandshake (strBytes "Duplicate header: " ++ trimStr name))
        else parseHeaders security rest (insertKV headers nameLower (trimStr value))

/-- Whitespace splitter (str::split_whitespace), ASCII subset. -/
def splitWsAux : List Nat → List Nat → List (List Nat)
  | [], cur => if cur = [] then [] else [cur.reverse]
  | b :: rest, cur =>
    if isWsByte b then
      if cur = [] then splitWsAux rest []
      else cur.reverse :: splitWsAux rest []
    else splitWsAux rest (b :: cur)

/-- Split a request line into whitespace-separated parts. -/
def splitWhitespace (s : List Nat) : List (List Nat) :=
  splitWsAux s []

/-- str::split(','), keeping empty pieces. -/
def splitOnComma : List Nat → List (List Nat)
  | [] => [[]]
  | b :: rest =>
    if b = 44 then [] :: splitOnComma rest
    else
      match splitOnComma rest with
      | h :: t => (b :: h) :: t
      | [] => [[b]]

/-- u8::from_str: optional leading plus sign, one or more ASCII digits,
value at most 255. -/
def parseU8 (s : List Nat) : Option Nat :=
  let digits := match s with | 43 :: rest => rest | _ => s
  if digits = [] then none
  else if digits.all (fun b => 48 ≤ b ∧ b ≤ 57) then
    let v := digits.foldl (fun acc b => acc * 10 + (b - 48)) 0
    if v ≤ 255 then some v else none
  else none

/-- Substring test on byte strings (str::contains). -/
def containsSubstr (needle : List Nat) : List Nat → Bool
  | [] => needle.isEmpty
  | b :: rest => needle.isPrefixOf (b :: rest) || containsSubstr needle rest

/-- The security-critical header names of HandshakeRequest::parse
(src/protocol/handshake.rs:187-193). -/
def securityHeaders : List (List Nat) :=
  [strBytes "host", strBytes "upgrade", strBytes "connection",
   strBytes "sec-websocket-key", strBytes "sec-websocket-version"]

/-- Parsed client handshake request (src/protocol/handshake.rs:123-138). -/
structure HandshakeRequest where
  path : List Nat
  host : List Nat
  key : List Nat
  version : Nat
  origin : Option (List Nat)
  protocols : List (List Nat)
  extensions : List (List Nat)
  deriving DecidableEq, Repr

/-- Optional comma-separated header into trimmed pieces. -/
def splitCommaList : Option (List Nat) → List (List Nat)
  | none => []
  | some v => (splitOnComma v).map trimStr

/-- HandshakeRequest::parse (src/protocol/handshake.rs:154-262) from the
line level (the UTF-8 decode of the raw bytes and the CRLF line split
precede this and cannot mask any later error).  Byte strings model the
ASCII str operations of the source. -/
def HandshakeRequest.parseLines (lines : List (List Nat)) :
    Except Err HandshakeRequest :=
  match lines with
  | [] => .error (.invalidHandshake (strBytes "Empty request"))
  | requestLine :: rest =>
    let parts := splitWhitespace requestLine
    if parts.length ≠ 3 then
      .error (.invalidHandshake (strBytes "Invalid request line"))
    else if parts.getD 0 [] ≠ strBytes "GET" then
      .error (.invalidHandshake (strBytes "Expected GET method, got " ++ parts.getD 0 []))
    else if ¬ (strBytes "HTTP/1.1").isPrefixOf (parts.getD 2 []) then
      .error (.invalidHandshake (strBytes "Expected HTTP/1.1, got " ++ parts.getD 2 []))
    else
      match parseHeaders (some securityHeaders) rest [] with
      | .error e => .error e
      | .ok headers =>
        match getHeader headers (strBytes "upgrade") with
        | none => .error (.invalidHandshake (strBytes "Missing Upgrade header"))
        | some upgrade =>
          if toLowerStr upgrade ≠ strBytes "websocket" then
            .error (.invalidHandshake (strBytes "Invalid Upgrade header: " ++ upgrade))
          else
            match getHeader headers (strBytes "connection") with
            | none => .error (.invalidHandshake (strBytes "Missing Connection header"))
            | some connection =>
              if ¬ containsSubstr (strBytes "upgrade") (toLowerStr connection) then
                .error (.invalidHandshake (strBytes "Invalid Connection header: " ++ connection))
              else
                match getHeader headers (strBytes "host") with
                | none => .error (.invalidHandshake (strBytes "Missing Host header"))
                | some host =>
                  match getHeader headers (strBytes "sec-websocket-key") with
                  | none =>
                    .error (.invalidHandshake
                      (strBytes "Missing Sec-WebSocket-Key header"))
                  | some key =>
                    match getHeader headers (strBytes "sec-websocket-version") with
                    | none =>
                      .error (.invalidHandshake
                        (strBytes "Missing Sec-WebSocket-Version header"))
                    | some versionStr =>
                      match parseU8 versionStr with
                      | none => .error (.invalidHandshake (strBytes "Invalid version: " ++ versionStr))
                      | some version =>
                        .ok ⟨parts.getD 1 [], host, key, version,
                          getHeader headers (strBytes "origin"),
                          splitCommaList (getHeader headers
                            (strBytes "sec-websocket-protocol")),
                          splitCommaList (getHeader headers
                            (strBytes "sec-websocket-extensions"))⟩

/-- Lowercased trimmed names of the header lines before the first empty
line, in order: the candidates for the duplicate check. -/
def headerNamesOf (lines : List (List Nat)) : List (List Nat) :=
  (lines.takeWhile (fun l => !l.isEmpty)).filterMap
    (fun l => (splitOnceColon l).map (fun p => toLowerStr (trimStr p.1)))

theorem containsKey_insertKV_iff (m : List (List Nat × List Nat))
    (k v name : List Nat) :
    containsKey (insertKV m k v) name = true ↔
      (containsKey m name = true ∨ name = k) := by
  simp only [containsKey, insertKV, List.any_eq_true, List.mem_append,
    List.mem_filter, List.mem_singleton, beq_iff_eq, Bool.not_eq_true',
    beq_eq_false_iff_ne]
  constructor
  · rintro ⟨p, hp, hpn⟩
    cases hp with
    | inl h => exact Or.inl ⟨p, h.1, hpn⟩
    | inr h => subst h; exact Or.inr hpn.symm
  · rintro (⟨p, hp, hpn⟩ | hnk)
    · by_cases hk : p.1 = k
      · exact ⟨(k, v), Or.inr rfl, by rw [← hpn, hk]⟩
      · exact ⟨p, Or.inl ⟨hp, hk⟩, hpn⟩
    · exact ⟨(k, v), Or.inr rfl, hnk.symm⟩

theorem headerNamesOf_cons (line : List Nat) (rest : List (List Nat))
    (hne : line ≠ []) :
    headerNamesOf (line :: rest) =
      (match splitOnceColon line with
       | none => headerNamesOf rest
       | some p => toLowerStr (trimStr p.1) :: headerNamesOf rest) := by
  have hb : (!line.isEmpty) = true := by
    cases line with
    | nil => exact absurd rfl hne
    | cons a l => rfl
  unfold headerNamesOf
  rw [List.takeWhile_cons, hb]
  rw [if_pos rfl]
  rw [List.filterMap_cons]
  cases h : splitOnceColon line with
  | none => simp [h]
  | some p => simp [h]

theorem parseHeaders_cons_none (line : List Nat) (rest : List (List Nat))
    (headers : List (List Nat × List Nat)) (hne : line ≠ [])
    (hsp : splitOnceColon line = none) :
    parseHeaders (some securityHeaders) (line :: rest) headers =
      parseHeaders (some securityHeaders) rest headers := by
  simp only [parseHeaders]
  rw [if_neg hne, hsp]

theorem parseHeaders_cons_some (line : List Nat) (rest : List (List Nat))
    (headers : List (List Nat × List Nat)) (hne : line ≠ [])
    (n v : List Nat) (hsp : splitOnceColon line = some (n, v)) :
    parseHeaders (some securityHeaders) (line :: rest) headers =
      (if (securityHeaders.contains (toLowerStr (trimStr n)) &&
            containsKey headers (toLowerStr (trimStr n))) = true then
        .error (.invalidHandshake (strBytes "Duplicate header: " ++ trimStr n))
      else parseHeaders (some securityHeaders) rest
        (insertKV headers (toLowerStr (trimStr n)) (trimStr v))) := by
  simp only [parseHeaders]
  rw [if_neg hne, hsp]

theorem parseHeaders_duplicate (lines : List (List Nat)) :
    ∀ (acc : List (List Nat × List Nat)) (name : List Nat),
    securityHeaders.contains name = true →
    (2 ≤ (headerNamesOf lines).count name ∨
      (1 ≤ (headerNamesOf lines).count name ∧ containsKey acc name = true)) →
    ∃ d, parseHeaders (some securityHeaders) lines acc =
      .error (.invalidHandshake (strBytes "Duplicate header: " ++ d)) := by
  induction lines with
  | nil =>
    intro acc name _ h
    exfalso
    have hz : (headerNamesOf []).count name = 0 := rfl
    rcases h with h | ⟨h, _⟩ <;> omega
  | cons line rest ih =>
    intro acc name hsec h
    by_cases hline : line = []
    · exfalso
      subst hline
      have hz : (headerNamesOf ([] :: rest)).count name = 0 := rfl
      rcases h with h | ⟨h, _⟩ <;> omega
    · cases hsp : splitOnceColon line with
      | none =>
        have hnames : headerNamesOf (line :: rest) = headerNamesOf rest := by
          rw [headerNamesOf_cons line rest hline, hsp]
        rw [hnames] at h
        obtain ⟨d, hd⟩ := ih acc name hsec h
        exact ⟨d, by rw [parseHeaders_cons_none line rest acc hline hsp, hd]⟩
      | some nv =>
        obtain ⟨n, v⟩ := nv
        have hnames : headerNamesOf (line :: rest) =
            toLowerStr (trimStr n) :: headerNamesOf rest := by
          rw [headerNamesOf_cons line rest hline, hsp]
        rw [hnames] at h
        by_cases hdup : (securityHeaders.contains (toLowerStr (trimStr n)) &&
            containsKey acc (toLowerStr (trimStr n))) = true
        · exact ⟨trimStr n, by
            rw [parseHeaders_cons_some line rest acc hline n v hsp, if_pos hdup]⟩
        · by_cases hname : toLowerStr (trimStr n) = name
          · have hck : containsKey acc name = false := by
              cases hc : containsKey acc name with
              | false => rfl
              | true =>
                exfalso
                apply hdup
                rw [hname, hsec, hc]
                rfl
            rcases h with hA | ⟨_, hB2⟩
            · have hcount : 1 ≤ (headerNamesOf rest).count name := by
                rw [List.count_cons, hname] at hA
                simp only [beq_self_eq_true, if_true] at hA
                omega
              have hacc : containsKey
                  (insertKV acc (toLowerStr (trimStr n)) (trimStr v)) name = true := by
                rw [containsKey_insertKV_iff]
                exact Or.inr hname.symm
              obtain ⟨d, hd⟩ := ih
                (insertKV acc (toLowerStr (trimStr n)) (trimStr v)) name hsec
                (Or.inr ⟨hcount, hacc⟩)
              exact ⟨d, by
                rw [parseHeaders_cons_some line rest acc hline n v hsp,
                  if_neg hdup, hd]⟩
            · rw [hB2] at hck
              exact absurd hck (by simp)
          · have hcount : ∀ m : Nat,
                m ≤ (toLowerStr (trimStr n) :: headerNamesOf rest).count name →
                m ≤ (headerNamesOf rest).count name := by
              intro m hm
              rw [List.count_cons] at hm
              have hne2 : (toLowerStr (trimStr n) == name) = false := by
                exact beq_eq_false_iff_ne.mpr hname
              rw [hne2] at hm
              simpa using hm
            have hacc : ∀ b, containsKey acc name = b →
                containsKey (insertKV acc (toLowerStr (trimStr n)) (trimStr v))
                  name = containsKey acc name := by
              intro b _
              cases hc : containsKey acc name with
              | true =>
                rw [(containsKey_insertKV_iff acc _ (trimStr v) name).mpr
                  (Or.inl hc)]
              | false =>
                cases hc2 : containsKey
                    (insertKV acc (toLowerStr (trimStr n)) (trimStr v)) name with
                | false => rfl
                | true =>
                  exfalso
                  rcases (containsKey_insertKV_iff acc _ (trimStr v) name).mp hc2
                    with hx | hx
                  · rw [hc] at hx; exact absurd hx (by simp)
                  · exact hname hx.symm
            rcases h with hA | ⟨hB1, hB2⟩
            · obtain ⟨d, hd⟩ := ih
                (insertKV acc (toLowerStr (trimStr n)) (trimStr v)) name hsec
                (Or.inl (hcount 2 hA))
              exact ⟨d, by
                rw [parseHeaders_cons_some line rest acc hline n v hsp,
                  if_neg hdup, hd]⟩
            · obtain ⟨d, hd⟩ := ih
                (insertKV acc (toLowerStr (trimStr n)) (trimStr v)) name hsec
                (Or.inr ⟨hcount 1 hB1, by rw [hacc _ rfl]; exact hB2⟩)
              exact ⟨d, by
                rw [parseHeaders_cons_some line rest acc hline n v hsp,
                  if_neg hdup, hd]⟩

/-- The request-line conditions of HandshakeRequest::parse: three
whitespace-separated parts, the GET method, and an HTTP/1.1 version. -/
def requestLineOk (line : List Nat) : Bool :=
  let parts := splitWhitespace line
  parts.length == 3 && (parts.getD 0 [] == strBytes "GET") &&
    (strBytes "HTTP/1.1").isPrefixOf (parts.getD 2 [])

/-- C7: Parsing a handshake request in which any security-critical header
(Host, Upgrade, Connection, Sec-WebSocket-Key, or Sec-WebSocket-Version)
appears more than once — with header names compared case-insensitively —
fails with an invalid-handshake error reporting the duplicate header. -/
theorem handshake_duplicate_header_rejected
    (reqLine : List Nat) (lines : List (List Nat)) (name : List Nat)
    (hreq : requestLineOk reqLine = true)
    (hsec : securityHeaders.contains name = true)
    (hdup : 2 ≤ (headerNamesOf lines).count name) :
    ∃ d, HandshakeRequest.parseLines (reqLine :: lines) =
      .error (.invalidHandshake (strBytes "Duplicate header: " ++ d)) := by
  simp only [requestLineOk, Bool.and_eq_true, beq_iff_eq] at hreq
  obtain ⟨⟨h1, h2⟩, h3⟩ := hreq
  obtain ⟨d, hd⟩ := parseHeaders_duplicate lines [] name hsec (Or.inl hdup)
  refine ⟨d, ?_⟩
  simp only [HandshakeRequest.parseLines]
  rw [if_neg (fun hc => hc h1), if_neg (fun hc => hc h2),
    if_neg (fun hc => hc h3), hd]

theorem handshake_duplicate_header_rejected_witness :
    ∃ d, HandshakeRequest.parseLines
        [strBytes "GET / HTTP/1.1", strBytes "Host: a", strBytes "Host: b"] =
      .error (.invalidHandshake (strBytes "Duplicate header: " ++ d)) :=
  handshake_duplicate_header_rejected (strBytes "GET / HTTP/1.1")
    [strBytes "Host: a", strBytes "Host: b"] (strBytes "host")
    (by decide) (by decide) (by decide)
